import Mathlib

/-!
# Mushroom-cap generation pipeline (`src/generation/cap.cpp`)

A shallow embedding of the cap generator: `generateBaseEllipsoid`,
`widenCapRealisticaly`, `applyPerlin`, `applyVoronoiTesselation`,
`applyBezierCurve` and the constructor's pipeline.

Conventions of the embedding.

* `float`/`double` values are read over an arbitrary linearly ordered field `α`
  (exact arithmetic, no rounding); the theorems about trigonometry and square
  roots are stated at `α = ℝ`.  Casts between `float` and `double` are the
  identity.
* The C math library (`sqrt`, `cos`, `sin`, `acos`, `atan2`, `M_PI`) is a
  parameter `CMath α`; `realCMath` is its reading over the reals.
* `GLushort` values are natural numbers reduced modulo `2^16` where the code
  stores them; `int` arithmetic on them is done in `Int`, with the truncating
  division of C++.
* A `MeshVertex*` into `this->vertices` is the index of the element it points
  to; `none` is a pointer that was never assigned.
* The vertex collection `QVector<MeshVertex>` is a `List`, every
  `for (auto&& v : vertices)` loop whose body touches only `v` is a `List.map`.
* The noise generator, the tessellation field and the stem curve are external
  to `cap.cpp`; they are arbitrary functions passed as arguments.
* The division counts `n` and `k` of a shape are the values the code holds in
  `GLushort` locals: the theorems about a valid shape take `n < 65536` and
  `k < 65536` next to `3 ≤ n` and `1 ≤ k`.
-/

namespace Morel

/-- The functions and the constant of the C math library used by `cap.cpp`. -/
structure CMath (α : Type) where
  sqrt : α → α
  cos : α → α
  sin : α → α
  acos : α → α
  atan2 : α → α → α
  pi : α

/-- The math library over the reals: `atan2 y x` is the argument of `x + y i`. -/
noncomputable def realCMath : CMath ℝ where
  sqrt := Real.sqrt
  cos := Real.cos
  sin := Real.sin
  acos := Real.arccos
  atan2 := fun y x => Complex.arg ⟨x, y⟩
  pi := Real.pi

/-- The three float components of a `QVector3D`. -/
structure QVector3D (α : Type) where
  x : α
  y : α
  z : α

/-- Modelled from the spec: the global `parameters` record (`globals.h` is not
among the sources), restricted to the fields `cap.cpp` reads.  The two division
counts are read into `GLushort` locals by every function that uses them. -/
structure Parameters (α : Type) where
  height : α
  stemHeightPart : α
  junctionRadius : α
  capMaxRadius : α
  capNumberOfVerticalDivisions : Nat
  capNumberOfHorizontalDivisions : Nat

/-- Conversion of an integer value to `GLushort` (16-bit unsigned). -/
def toGLushort (v : Nat) : Nat := v % 65536

/-- The record `MeshVertex` of `tools/meshvertex.h`. -/
structure MeshVertex (α : Type) where
  id : Nat
  position : QVector3D α
  baseAngle : α
  baseHeight : α
  layer : Int
  color : QVector3D α
  top : Option Int
  bottom : Option Int
  right : Option Int
  left : Option Int

section Generation

variable {α : Type} [LinearOrderedField α]

/-- The radius `newRadius` of ring `i` (`cap.cpp` lines 125-134). -/
def newRadius (M : CMath α) (p : Parameters α) (i : Nat) : α :=
  let k := toGLushort p.capNumberOfHorizontalDivisions
  let height := p.height * (1 - p.stemHeightPart)
  let radius := p.junctionRadius
  let b := p.capMaxRadius - p.junctionRadius
  let h := height
  let r := radius
  let a := ((i : α) * 1 / (k : α) * 1) * h
  if a ≤ 0 then r
  else M.sqrt (b ^ 2 * (1 - (a - h / 2) ^ 2 / (h / 2) ^ 2)) + r - (r / h) * a

/-- The vertex appended by the inner loop for ring `i` and column `j`
(`cap.cpp` lines 137-151).  The neighbour pointers are those of a freshly
constructed `MeshVertex`, not yet assigned. -/
def ringVertex (M : CMath α) (p : Parameters α) (i j : Nat) : MeshVertex α :=
  let n := toGLushort p.capNumberOfVerticalDivisions
  let k := toGLushort p.capNumberOfHorizontalDivisions
  let height := p.height * (1 - p.stemHeightPart)
  let step := height / (k : α)
  let angle := (2 * M.pi / (n : α)) * (j : α)
  let x := newRadius M p i * M.cos angle
  let y := newRadius M p i * M.sin angle
  let z := step * (i : α)
  { id := toGLushort (i * n + j)
    position := ⟨x, y, z⟩
    color := ⟨205 / 255, 122 / 255, 54 / 255⟩
    layer := (i : Int)
    baseAngle := angle
    baseHeight := z
    top := none
    bottom := none
    right := none
    left := none }

/-- The vertex added at the top (`cap.cpp` lines 156-165). -/
def apexVertex (p : Parameters α) : MeshVertex α :=
  let n := toGLushort p.capNumberOfVerticalDivisions
  let k := toGLushort p.capNumberOfHorizontalDivisions
  let height := p.height * (1 - p.stemHeightPart)
  { id := toGLushort (n * k)
    position := ⟨0, 0, height⟩
    color := ⟨205 / 255, 122 / 255, 54 / 255⟩
    layer := (k : Int)
    baseAngle := 0
    baseHeight := height
    top := none
    bottom := none
    right := none
    left := none }

/-- The creation loops (`cap.cpp` lines 124-165): `k` rings of `n` vertices,
appended ring after ring, then the apex. -/
def createVertices (M : CMath α) (p : Parameters α) : List (MeshVertex α) :=
  let n := toGLushort p.capNumberOfVerticalDivisions
  let k := toGLushort p.capNumberOfHorizontalDivisions
  (List.range k).flatMap (fun i => (List.range n).map (fun j => ringVertex M p i j))
    ++ [apexVertex p]

/-- The body of the linking loop (`cap.cpp` lines 169-194) for one vertex; `n`
and `k` are the `GLushort` locals, promoted to `int` with `v.id`. -/
def linkVertex (n k : Nat) (v : MeshVertex α) : MeshVertex α :=
  let vid : Int := (v.id : Int)
  let i : Int := Int.tdiv vid (n : Int)
  if i ≠ (k : Int) then
    let v1 := if i ≠ 0 then { v with bottom := some (vid - n) } else v
    let v2 :=
      if i ≥ (k : Int) - 1 then { v1 with top := some ((k : Int) * n) }
      else { v1 with top := some (vid + n) }
    let v3 :=
      if i ≠ Int.tdiv (vid + 1) (n : Int) then { v2 with right := some (vid - n + 1) }
      else { v2 with right := some (vid + 1) }
    if vid = 0 ∨ i ≠ Int.tdiv (vid - 1) (n : Int) then { v3 with left := some (vid + n - 1) }
    else { v3 with left := some (vid - 1) }
  else v

/-- Modelled from the spec: `MeshVertex::computeNormalVector` (`meshvertex.cpp`
is not among the sources).  The normal it computes is used only for shading and
is stored in none of the fields modelled here. -/
def computeNormalVector (v : MeshVertex α) : MeshVertex α := v

/-- The method `Cap::generateBaseEllipsoid` (`cap.cpp` lines 112-200). -/
def generateBaseEllipsoid (M : CMath α) (p : Parameters α) : List (MeshVertex α) :=
  let n := toGLushort p.capNumberOfVerticalDivisions
  let k := toGLushort p.capNumberOfHorizontalDivisions
  ((createVertices M p).map (linkVertex n k)).map computeNormalVector

end Generation

section Passes

variable {α : Type} [LinearOrderedField α]

/-- The base branch of the radial-scale factor, `a1*qPow((x-b1),pow)+c`
(`cap.cpp` line 233), with `c = 1.2`, `pow = 3`, `d = 0.20`, `b1 = h*d` and
`a1 = c/qPow(b1,pow)`. -/
def widenBaseBranch (h x : α) : α :=
  let c : α := 12 / 10
  let d : α := 20 / 100
  let b1 := h * d
  let a1 := c / b1 ^ 3
  let factor := a1 * (x - b1) ^ 3 + c
  factor

/-- The tip branch of the radial-scale factor, `-a2*qPow((x-b2),pow)+c`
(`cap.cpp` line 235), with `c = 1.2`, `pow = 3`, `e = 0.99`, `b2 = h*e` and
`a2 = -c/qPow(h-b2,pow)`. -/
def widenTipBranch (h x : α) : α :=
  let c : α := 12 / 10
  let e : α := 99 / 100
  let b2 := h * e
  let a2 := -c / (h - b2) ^ 3
  let factor := -a2 * (x - b2) ^ 3 + c
  factor

/-- The radial-scale `factor` of `widenCapRealisticaly` for cap height `h` and
vertex height `x` (`cap.cpp` lines 215-238). -/
def widenFactor (h x : α) : α :=
  let c : α := 12 / 10
  let d : α := 20 / 100
  let e : α := 99 / 100
  if x < d * h then widenBaseBranch h x
  else if x > e * h then widenTipBranch h x
  else c

/-- The body of the loop of `widenCapRealisticaly` (`cap.cpp` lines 227-240). -/
def widenVertex (n : Nat) (h : α) (v : MeshVertex α) : MeshVertex α :=
  let i : Int := Int.tdiv (v.id : Int) (n : Int)
  if i ≠ 0 then
    let x := v.position.z
    let factor := widenFactor h x
    { v with position :=
        ⟨factor * v.position.x + v.position.x, factor * v.position.y + v.position.y,
          v.position.z⟩ }
  else v

/-- The method `Cap::widenCapRealisticaly` (`cap.cpp` lines 211-243). -/
def widenCapRealisticaly (p : Parameters α) (vertices : List (MeshVertex α)) :
    List (MeshVertex α) :=
  let n := toGLushort p.capNumberOfVerticalDivisions
  let h := p.height * (1 - p.stemHeightPart)
  vertices.map (widenVertex n h)

/-- The coordinate `sZ` of the unit-sphere projection (`cap.cpp` lines 23, 67). -/
def sphereZ (h : α) (v : MeshVertex α) : α := 2 * (v.baseHeight - h / 2) / h

/-- The coordinate `sX` of the unit-sphere projection (`cap.cpp` lines 24-25). -/
def sphereX (M : CMath α) (h : α) (v : MeshVertex α) : α :=
  M.sqrt (1 - sphereZ h v ^ 2) * M.cos v.baseAngle

/-- The coordinate `sY` of the unit-sphere projection (`cap.cpp` lines 24, 26). -/
def sphereY (M : CMath α) (h : α) (v : MeshVertex α) : α :=
  M.sqrt (1 - sphereZ h v ^ 2) * M.sin v.baseAngle

/-- The last steps shared by `applyPerlin` and `applyVoronoiTesselation`
(`cap.cpp` lines 37-51 and 84-100): back to cartesian coordinates with the new
radius `r`, the guarded axis factors, and the update of `x` and `y`.  The code
also computes `z` and `factorZ` and uses neither; they are left out. -/
def applyRadius (M : CMath α) (h r : α) (v : MeshVertex α) : MeshVertex α :=
  let sX := sphereX M h v
  let sY := sphereY M h v
  let theta := M.atan2 sY sX
  let phi := M.acos (sphereZ h v)
  let x := r * M.cos theta * M.sin phi
  let y := r * M.sin theta * M.sin phi
  let factorX := if |sX| ≤ 1 / 100 then 1 else x / sX
  let factorY := if |sY| ≤ 1 / 100 then 1 else y / sY
  { v with position := ⟨v.position.x * factorX, v.position.y * factorY, v.position.z⟩ }

/-- The body of the loop of `applyPerlin` (`cap.cpp` lines 21-53); `noise` is
`perlinNoise.octaveNoise`, whatever its seed. -/
def perlinVertex (M : CMath α) (noise : α → α → Int → α) (octaves : Int) (h : α)
    (v : MeshVertex α) : MeshVertex α :=
  if v.layer ≠ 0 then
    let sX := sphereX M h v
    let sY := sphereY M h v
    let r : α := 1
    let theta := M.atan2 sY sX
    let phi := M.acos (sphereZ h v)
    let r := r + r * noise theta phi octaves
    applyRadius M h r v
  else v

/-- The method `Cap::applyPerlin` (`cap.cpp` lines 13-55). -/
def applyPerlin (M : CMath α) (noise : α → α → Int → α) (p : Parameters α) (octaves : Int)
    (vertices : List (MeshVertex α)) : List (MeshVertex α) :=
  let h := p.height * (1 - p.stemHeightPart)
  vertices.map (perlinVertex M noise octaves h)

/-- The body of the loop of `applyVoronoiTesselation` (`cap.cpp` lines 65-102);
`getFactorAt` is the tessellation field `voronoiGenerator.getFactorAt`. -/
def voronoiVertex (M : CMath α) (getFactorAt : α → α → α) (h : α) (v : MeshVertex α) :
    MeshVertex α :=
  let fMax : α := 11 / 10
  if v.layer ≠ 0 then
    let sX := sphereX M h v
    let sY := sphereY M h v
    let r : α := 1
    let theta := M.atan2 sY sX
    let phi := M.acos (sphereZ h v)
    let factor := getFactorAt ((theta + M.pi) / (2 * M.pi)) ((phi + M.pi) / (2 * M.pi))
    let v1 :=
      if |factor - fMax| ≤ 1 / 100 then { v with color := ⟨225 / 255, 188 / 255, 144 / 255⟩ }
      else v
    let r := r * factor
    applyRadius M h r v1
  else v

/-- The method `Cap::applyVoronoiTesselation` (`cap.cpp` lines 58-104). -/
def applyVoronoiTesselation (M : CMath α) (getFactorAt : α → α → α) (p : Parameters α)
    (vertices : List (MeshVertex α)) : List (MeshVertex α) :=
  let h := p.height * (1 - p.stemHeightPart)
  vertices.map (voronoiVertex M getFactorAt h)

/-- The method `Cap::applyBezierCurve` (`cap.cpp` lines 202-209); `bezier` is
`Bezier::applyFullBezierTransformationToVertex`, which receives the vertex, the
curve parameter `t` and the base height. -/
def applyBezierCurve (bezier : MeshVertex α → α → α → MeshVertex α) (p : Parameters α)
    (vertices : List (MeshVertex α)) : List (MeshVertex α) :=
  let baseHeight := p.height * p.stemHeightPart
  vertices.map (fun v => bezier v (p.stemHeightPart + v.position.z / p.height) baseHeight)

/-- The constructor `Cap::Cap` (`cap.cpp` lines 3-11): build, widen, eighteen
octaves of noise, bend; the result is the vertex collection of the cap. -/
def Cap (M : CMath α) (noise : α → α → Int → α) (bezier : MeshVertex α → α → α → MeshVertex α)
    (p : Parameters α) : List (MeshVertex α) :=
  applyBezierCurve bezier p
    (applyPerlin M noise p 18 (widenCapRealisticaly p (generateBaseEllipsoid M p)))

/-- The first coordinate passed to `getFactorAt` (`cap.cpp` line 78),
`(theta+M_PI)/(2*M_PI)` with `theta = atan2(sY, sX)`. -/
def voronoiU (M : CMath α) (h : α) (v : MeshVertex α) : α :=
  let sX := sphereX M h v
  let sY := sphereY M h v
  let theta := M.atan2 sY sX
  (theta + M.pi) / (2 * M.pi)

/-- The second coordinate passed to `getFactorAt` (`cap.cpp` line 78),
`(phi+M_PI)/(2*M_PI)` with `phi = acos(sZ)`. -/
def voronoiV (M : CMath α) (h : α) (v : MeshVertex α) : α :=
  let phi := M.acos (sphereZ h v)
  (phi + M.pi) / (2 * M.pi)

/-- The argument of `sqrt` in the radius of ring `i` (`cap.cpp` line 133),
`pow(b,2.0)*(1.0-pow(a-h/2.0,2.0)/pow(h/2.0,2.0))`. -/
def newRadiusRadicand (p : Parameters α) (i : Nat) : α :=
  let k := toGLushort p.capNumberOfHorizontalDivisions
  let height := p.height * (1 - p.stemHeightPart)
  let b := p.capMaxRadius - p.junctionRadius
  let h := height
  let a := ((i : α) * 1 / (k : α) * 1) * h
  b ^ 2 * (1 - (a - h / 2) ^ 2 / (h / 2) ^ 2)

end Passes

section Examples

variable (α : Type) [LinearOrderedField α]

/-- The shape of the end-to-end scenario: `height = 10`, `stemHeightPart = 0.3`,
`junctionRadius = 1`, `capMaxRadius = 3`, `n = 8`, `k = 4`. -/
def scenarioShape : Parameters α := ⟨10, 3 / 10, 1, 3, 8, 4⟩

/-- A shape with `n = 3` and `k = 21846`: its `3 * 21846 + 1 = 65539` vertices do
not all have an identifier below `2^16`. -/
def largeShape : Parameters α := ⟨10, 3 / 10, 1, 3, 3, 21846⟩

/-- A shape with `n = 256` and `k = 256`: the ring vertices have the indices
`0 .. 65535` and the apex has the index `65536 = 2^16`. -/
def squareShape : Parameters α := ⟨10, 3 / 10, 1, 3, 256, 256⟩

/-- A shape with `n = 8` and `k = 200` rings: ring `199` lies above `0.99` of
the cap height. -/
def tallShape : Parameters α := ⟨10, 3 / 10, 1, 3, 8, 200⟩

end Examples

/-! ## Auxiliary lemmas -/

section Lemmas

theorem toGLushort_of_lt {v : Nat} (h : v < 65536) : toGLushort v = v :=
  Nat.mod_eq_of_lt h

theorem length_rings {β : Type} (f : Nat → Nat → β) (n k : Nat) :
    ((List.range k).flatMap (fun i => (List.range n).map (f i))).length = k * n := by
  induction k with
  | zero => simp
  | succ k ih =>
    rw [List.range_succ, List.flatMap_append, List.length_append, ih]
    simp [Nat.succ_mul]

theorem getElem?_rings {β : Type} (f : Nat → Nat → β) (n k i j : Nat) (hi : i < k)
    (hj : j < n) :
    ((List.range k).flatMap (fun i => (List.range n).map (f i)))[i * n + j]? = some (f i j) := by
  induction k with
  | zero => omega
  | succ k ih =>
    rw [List.range_succ, List.flatMap_append]
    rcases Nat.lt_succ_iff_lt_or_eq.mp hi with h | h
    · have hle : (i + 1) * n ≤ k * n := Nat.mul_le_mul_right n h
      have hlt : i * n + j < k * n := by rw [Nat.succ_mul] at hle; omega
      rw [List.getElem?_append_left (by rw [length_rings]; exact hlt)]
      exact ih h
    · subst h
      rw [List.getElem?_append_right (by rw [length_rings]; omega), length_rings]
      simp [hj]

theorem sum_range_ite (n r k : Nat) :
    ((List.range k).map (fun i => if i = r then n else 0)).sum = if r < k then n else 0 := by
  induction k with
  | zero => simp
  | succ k ih =>
    rw [List.range_succ, List.map_append, List.sum_append, ih]
    by_cases h1 : r < k
    · have h2 : k ≠ r := by omega
      have h3 : r < k + 1 := by omega
      simp [h1, h2, h3]
    · by_cases h2 : k = r
      · subst h2; simp
      · have h3 : ¬ r < k + 1 := by omega
        simp [h1, h2, h3]

@[simp] theorem linkVertex_layer {α : Type} (n k : Nat) (v : MeshVertex α) :
    (linkVertex n k v).layer = v.layer := by
  unfold linkVertex; simp only []; split_ifs <;> rfl

@[simp] theorem linkVertex_id {α : Type} (n k : Nat) (v : MeshVertex α) :
    (linkVertex n k v).id = v.id := by
  unfold linkVertex; simp only []; split_ifs <;> rfl

@[simp] theorem linkVertex_position {α : Type} (n k : Nat) (v : MeshVertex α) :
    (linkVertex n k v).position = v.position := by
  unfold linkVertex; simp only []; split_ifs <;> rfl

@[simp] theorem linkVertex_baseAngle {α : Type} (n k : Nat) (v : MeshVertex α) :
    (linkVertex n k v).baseAngle = v.baseAngle := by
  unfold linkVertex; simp only []; split_ifs <;> rfl

@[simp] theorem linkVertex_baseHeight {α : Type} (n k : Nat) (v : MeshVertex α) :
    (linkVertex n k v).baseHeight = v.baseHeight := by
  unfold linkVertex; simp only []; split_ifs <;> rfl

/-- The linked vertex of ring `i`, column `j`, as `generateBaseEllipsoid` leaves it. -/
theorem generateBaseEllipsoid_ring {α : Type} [LinearOrderedField α] (M : CMath α) (p : Parameters α) (i j : Nat)
    (hi : i < toGLushort p.capNumberOfHorizontalDivisions)
    (hj : j < toGLushort p.capNumberOfVerticalDivisions) :
    (generateBaseEllipsoid M p)[i * toGLushort p.capNumberOfVerticalDivisions + j]? =
      some (linkVertex (toGLushort p.capNumberOfVerticalDivisions)
        (toGLushort p.capNumberOfHorizontalDivisions) (ringVertex M p i j)) := by
  have hlt : i * toGLushort p.capNumberOfVerticalDivisions + j <
      toGLushort p.capNumberOfHorizontalDivisions * toGLushort p.capNumberOfVerticalDivisions := by
    have hle := Nat.mul_le_mul_right (toGLushort p.capNumberOfVerticalDivisions) hi
    rw [Nat.succ_mul] at hle; omega
  simp only [generateBaseEllipsoid, createVertices, List.map_map, List.getElem?_map]
  rw [List.getElem?_append_left (by rw [length_rings]; exact hlt), getElem?_rings _ _ _ _ _ hi hj]
  rfl

/-- The apex, as `generateBaseEllipsoid` leaves it. -/
theorem generateBaseEllipsoid_apex {α : Type} [LinearOrderedField α] (M : CMath α) (p : Parameters α) :
    (generateBaseEllipsoid M p)[toGLushort p.capNumberOfVerticalDivisions *
        toGLushort p.capNumberOfHorizontalDivisions]? =
      some (linkVertex (toGLushort p.capNumberOfVerticalDivisions)
        (toGLushort p.capNumberOfHorizontalDivisions) (apexVertex p)) := by
  simp only [generateBaseEllipsoid, createVertices, List.map_map, List.getElem?_map]
  rw [List.getElem?_append_right (by rw [length_rings, Nat.mul_comm]), length_rings, Nat.mul_comm]
  simp [computeNormalVector]

theorem generateBaseEllipsoid_length_aux {α : Type} [LinearOrderedField α] (M : CMath α) (p : Parameters α) :
    (generateBaseEllipsoid M p).length =
      toGLushort p.capNumberOfVerticalDivisions * toGLushort p.capNumberOfHorizontalDivisions + 1 := by
  simp only [generateBaseEllipsoid, createVertices, List.length_map, List.length_append,
    length_rings, List.length_singleton]
  rw [Nat.mul_comm]

end Lemmas

/-- Every element of the lattice is a linked ring vertex or the linked apex. -/
theorem generateBaseEllipsoid_cases {α : Type} [LinearOrderedField α] (M : CMath α)
    (p : Parameters α) (m : Nat) (v : MeshVertex α)
    (hv : (generateBaseEllipsoid M p)[m]? = some v) :
    (m < toGLushort p.capNumberOfVerticalDivisions * toGLushort p.capNumberOfHorizontalDivisions ∧
      m / toGLushort p.capNumberOfVerticalDivisions < toGLushort p.capNumberOfHorizontalDivisions ∧
      m % toGLushort p.capNumberOfVerticalDivisions < toGLushort p.capNumberOfVerticalDivisions ∧
      v = linkVertex (toGLushort p.capNumberOfVerticalDivisions)
        (toGLushort p.capNumberOfHorizontalDivisions)
        (ringVertex M p (m / toGLushort p.capNumberOfVerticalDivisions)
          (m % toGLushort p.capNumberOfVerticalDivisions))) ∨
    (m = toGLushort p.capNumberOfVerticalDivisions * toGLushort p.capNumberOfHorizontalDivisions ∧
      v = linkVertex (toGLushort p.capNumberOfVerticalDivisions)
        (toGLushort p.capNumberOfHorizontalDivisions) (apexVertex p)) := by
  generalize hn : toGLushort p.capNumberOfVerticalDivisions = n at *
  generalize hk : toGLushort p.capNumberOfHorizontalDivisions = k at *
  have hlen : m < n * k + 1 := by
    have h1 := (List.getElem?_eq_some_iff.mp hv).1
    rw [generateBaseEllipsoid_length_aux, hn, hk] at h1
    exact h1
  rcases Nat.lt_succ_iff_lt_or_eq.mp hlen with h | h
  · left
    have hnpos : 0 < n := by
      rcases Nat.eq_zero_or_pos n with h0 | h0
      · subst h0; simp at h
      · exact h0
    have hi : m / n < k := (Nat.div_lt_iff_lt_mul hnpos).mpr (by rwa [Nat.mul_comm] at h)
    have hj : m % n < n := Nat.mod_lt _ hnpos
    refine ⟨h, hi, hj, ?_⟩
    have hr := generateBaseEllipsoid_ring M p (m / n) (m % n) (by rwa [hk]) (by rwa [hn])
    rw [hn, hk, Nat.div_add_mod', hv] at hr
    exact Option.some.inj hr
  · right
    refine ⟨h, ?_⟩
    have ha := generateBaseEllipsoid_apex M p
    rw [hn, hk, ← h, hv] at ha
    exact Option.some.inj ha


/-! ## C1: vertex count -/

/-- C1. For a valid shape (`n ≥ 3`, `k ≥ 1`, both `GLushort` values) the lattice
built by `generateBaseEllipsoid` has exactly `n * k + 1` vertices, and
`widenCapRealisticaly`, `applyPerlin` and `applyVoronoiTesselation` return a
collection of the same length as the one they receive, so the count is still
`n * k + 1` after any of them. -/
theorem C1_vertex_count {α : Type} [LinearOrderedField α] (M : CMath α) (p : Parameters α)
    (_hn3 : 3 ≤ p.capNumberOfVerticalDivisions) (hn : p.capNumberOfVerticalDivisions < 65536)
    (_hk1 : 1 ≤ p.capNumberOfHorizontalDivisions)
    (hk : p.capNumberOfHorizontalDivisions < 65536) :
    (generateBaseEllipsoid M p).length =
        p.capNumberOfVerticalDivisions * p.capNumberOfHorizontalDivisions + 1 ∧
    (∀ vs : List (MeshVertex α), (widenCapRealisticaly p vs).length = vs.length) ∧
    (∀ (noise : α → α → Int → α) (octaves : Int) (vs : List (MeshVertex α)),
      (applyPerlin M noise p octaves vs).length = vs.length) ∧
    (∀ (getFactorAt : α → α → α) (vs : List (MeshVertex α)),
      (applyVoronoiTesselation M getFactorAt p vs).length = vs.length) ∧
    (∀ (noise : α → α → Int → α) (octaves : Int) (getFactorAt : α → α → α),
      (applyVoronoiTesselation M getFactorAt p
        (applyPerlin M noise p octaves
          (widenCapRealisticaly p (generateBaseEllipsoid M p)))).length =
        p.capNumberOfVerticalDivisions * p.capNumberOfHorizontalDivisions + 1) := by
  have hlen : (generateBaseEllipsoid M p).length =
      p.capNumberOfVerticalDivisions * p.capNumberOfHorizontalDivisions + 1 := by
    rw [generateBaseEllipsoid_length_aux, toGLushort_of_lt hn, toGLushort_of_lt hk]
  refine ⟨hlen, ?_, ?_, ?_, ?_⟩
  · intro vs; simp [widenCapRealisticaly]
  · intro noise octaves vs; simp [applyPerlin]
  · intro g vs; simp [applyVoronoiTesselation]
  · intro noise octaves g
    simp only [applyVoronoiTesselation, applyPerlin, widenCapRealisticaly, List.length_map]
    exact hlen

/-- C1 at the scenario shape: `8 * 4 + 1 = 33` vertices. -/
theorem C1_vertex_count_witness :
    (generateBaseEllipsoid realCMath (scenarioShape ℝ)).length = 8 * 4 + 1 :=
  (C1_vertex_count realCMath (scenarioShape ℝ) (by decide) (by decide) (by decide)
    (by decide)).1


/-! ## C2: layers -/

theorem countP_layer_rings {α : Type} [LinearOrderedField α] (M : CMath α) (p : Parameters α)
    (n k : Nat) (c : Int) :
    List.countP (fun v : MeshVertex α => decide (v.layer = c))
      (((List.range k).flatMap (fun i => (List.range n).map (fun j => ringVertex M p i j))).map
        (computeNormalVector ∘ linkVertex n k)) =
    ((List.range k).map (fun i : Nat => if (i : Int) = c then n else 0)).sum := by
  rw [List.countP_map, List.countP_flatMap]
  congr 1
  apply List.map_congr_left
  intro i _
  simp only [Function.comp, List.countP_map]
  have hq : (((fun v : MeshVertex α => decide (v.layer = c)) ∘ computeNormalVector ∘
      linkVertex n k) ∘ fun j => ringVertex M p i j) = fun _ => decide ((i : Int) = c) := by
    funext j
    simp [computeNormalVector, ringVertex]
  rw [hq]
  by_cases h : (i : Int) = c
  · simp [h]
  · simp [h]

/-- C2. For a valid shape, after `generateBaseEllipsoid` the vertex at index
`r * n + j` (`r < k`, `j < n`) has layer `r` and the vertex at index `n * k` has
layer `k`; each layer `r < k` has exactly `n` vertices, which are those at the
indices `[r * n, r * n + n)`, and the apex is the only vertex whose layer is
`k`. -/
theorem C2_layers {α : Type} [LinearOrderedField α] (M : CMath α) (p : Parameters α)
    (hn3 : 3 ≤ p.capNumberOfVerticalDivisions) (hn : p.capNumberOfVerticalDivisions < 65536)
    (_hk1 : 1 ≤ p.capNumberOfHorizontalDivisions)
    (hk : p.capNumberOfHorizontalDivisions < 65536) :
    (∀ r j : Nat, r < p.capNumberOfHorizontalDivisions → j < p.capNumberOfVerticalDivisions →
      ((generateBaseEllipsoid M p)[r * p.capNumberOfVerticalDivisions + j]?).map
        (fun v => v.layer) = some (r : Int)) ∧
    ((generateBaseEllipsoid M p)[p.capNumberOfVerticalDivisions *
        p.capNumberOfHorizontalDivisions]?).map (fun v => v.layer) =
      some (p.capNumberOfHorizontalDivisions : Int) ∧
    (∀ r : Nat, r < p.capNumberOfHorizontalDivisions →
      (generateBaseEllipsoid M p).countP (fun v => decide (v.layer = (r : Int))) =
        p.capNumberOfVerticalDivisions) ∧
    (∀ (r m : Nat) (v : MeshVertex α), r < p.capNumberOfHorizontalDivisions →
      (generateBaseEllipsoid M p)[m]? = some v →
      (v.layer = (r : Int) ↔
        r * p.capNumberOfVerticalDivisions ≤ m ∧
          m < r * p.capNumberOfVerticalDivisions + p.capNumberOfVerticalDivisions)) ∧
    (generateBaseEllipsoid M p).countP
      (fun v => decide (v.layer = (p.capNumberOfHorizontalDivisions : Int))) = 1 ∧
    (∀ (m : Nat) (v : MeshVertex α), (generateBaseEllipsoid M p)[m]? = some v →
      (v.layer = (p.capNumberOfHorizontalDivisions : Int) ↔
        m = p.capNumberOfVerticalDivisions * p.capNumberOfHorizontalDivisions)) := by
  have hN := toGLushort_of_lt hn
  have hK := toGLushort_of_lt hk
  have hcases := generateBaseEllipsoid_cases M p
  have hring := generateBaseEllipsoid_ring M p
  have hapex := generateBaseEllipsoid_apex M p
  have hcount : ∀ c : Int, (generateBaseEllipsoid M p).countP (fun v => decide (v.layer = c)) =
      ((List.range p.capNumberOfHorizontalDivisions).map
        (fun i : Nat => if (i : Int) = c then p.capNumberOfVerticalDivisions else 0)).sum +
      (if (p.capNumberOfHorizontalDivisions : Int) = c then 1 else 0) := by
    intro c
    have h := countP_layer_rings M p p.capNumberOfVerticalDivisions
      p.capNumberOfHorizontalDivisions c
    simp only [generateBaseEllipsoid, createVertices, List.map_map, List.map_append,
      List.countP_append, hN, hK, h]
    by_cases hc : (p.capNumberOfHorizontalDivisions : Int) = c
    · simp [computeNormalVector, apexVertex, hK, hc]
    · simp [computeNormalVector, apexVertex, hK, hc]
  rw [hN, hK] at hcases hring hapex
  have hal : (apexVertex p).layer = (p.capNumberOfHorizontalDivisions : Int) := by
    simp [apexVertex, hK]
  have hrl : ∀ i j : Nat, (ringVertex M p i j).layer = (i : Int) := fun i j => rfl
  generalize p.capNumberOfVerticalDivisions = n at *
  generalize p.capNumberOfHorizontalDivisions = k at *
  have hnpos : 0 < n := by omega
  refine ⟨?_, ?_, ?_, ?_, ?_, ?_⟩
  · intro r j hr hj
    rw [hring r j hr hj]
    simp [hrl]
  · rw [hapex]
    simp [hal]
  · intro r hr
    rw [hcount]
    have hne : ¬ ((k : Int) = (r : Int)) := by omega
    have hs := sum_range_ite n r k
    simp only [Nat.cast_inj, hne, if_false, Nat.add_zero]
    rw [hs, if_pos hr]
  · intro r m v hr hv
    rcases hcases m v hv with ⟨hm, hi, _, rfl⟩ | ⟨rfl, rfl⟩
    · simp only [linkVertex_layer, hrl, Nat.cast_inj]
      constructor
      · intro h
        subst h
        have h1 := Nat.div_mul_le_self m n
        have h2 := Nat.div_add_mod' m n
        have h3 := Nat.mod_lt m hnpos
        omega
      · rintro ⟨h1, h2⟩
        apply Nat.le_antisymm
        · have : m / n < r + 1 := (Nat.div_lt_iff_lt_mul hnpos).mpr (by rw [Nat.succ_mul]; exact h2)
          omega
        · exact (Nat.le_div_iff_mul_le hnpos).mpr h1
    · simp only [linkVertex_layer, hal, Nat.cast_inj]
      constructor
      · intro h; omega
      · rintro ⟨_, h2⟩
        have h3 : (r + 1) * n ≤ k * n := Nat.mul_le_mul_right n hr
        rw [Nat.succ_mul, Nat.mul_comm k n] at h3
        omega
  · rw [hcount]
    have hs := sum_range_ite n k k
    simp only [Nat.cast_inj, if_true]
    rw [hs, if_neg (Nat.lt_irrefl k)]
  · intro m v hv
    rcases hcases m v hv with ⟨hm, hi, _, rfl⟩ | ⟨rfl, rfl⟩
    · simp only [linkVertex_layer, hrl, Nat.cast_inj]
      constructor
      · intro h; omega
      · intro h; omega
    · simp [hal]


/-- C2 at the scenario shape: the vertex at index `8 * 4` has layer `4`. -/
theorem C2_layers_witness :
    ((generateBaseEllipsoid realCMath (scenarioShape ℝ))[8 * 4]?).map (fun v => v.layer) =
      some ((4 : Nat) : Int) :=
  (C2_layers realCMath (scenarioShape ℝ) (by decide) (by decide) (by decide) (by decide)).2.1

theorem div_ring (n r j : Nat) (hj : j < n) : (r * n + j) / n = r := by
  have hn : 0 < n := by omega
  rw [Nat.mul_comm, Nat.mul_add_div hn, Nat.div_eq_of_lt hj, Nat.add_zero]

theorem tdiv_ring (n r j : Nat) (hj : j < n) :
    Int.tdiv (((r * n + j : Nat) : Int)) (n : Int) = (r : Int) := by
  rw [← Int.ofNat_tdiv, div_ring n r j hj]

theorem tdiv_ring_succ (n r j : Nat) (hj : j < n) :
    Int.tdiv (((r * n + j : Nat) : Int) + 1) (n : Int) =
      if j + 1 < n then (r : Int) else (r : Int) + 1 := by
  have h1 : ((r * n + j : Nat) : Int) + 1 = ((r * n + j + 1 : Nat) : Int) := by push_cast; ring
  rw [h1, ← Int.ofNat_tdiv]
  split_ifs with h
  · rw [Nat.add_assoc, div_ring n r (j + 1) h]
  · have h2 : r * n + j + 1 = (r + 1) * n + 0 := by rw [Nat.succ_mul]; omega
    rw [h2, div_ring n (r + 1) 0 (by omega)]
    push_cast; ring

theorem tdiv_ring_pred (n r j : Nat) (hj : j < n) (hpos : r * n + j ≠ 0) :
    Int.tdiv (((r * n + j : Nat) : Int) - 1) (n : Int) =
      if j = 0 then (r : Int) - 1 else (r : Int) := by
  have h1 : ((r * n + j : Nat) : Int) - 1 = ((r * n + j - 1 : Nat) : Int) := by
    have : 1 ≤ r * n + j := Nat.one_le_iff_ne_zero.mpr hpos
    push_cast [this]; ring
  rw [h1, ← Int.ofNat_tdiv]
  split_ifs with h
  · subst h
    have hr : 1 ≤ r := by
      rcases Nat.eq_zero_or_pos r with h0 | h0
      · subst h0; simp at hpos
      · exact h0
    obtain ⟨r, rfl⟩ : ∃ s, r = s + 1 := ⟨r - 1, by omega⟩
    have h2 : (r + 1) * n + 0 - 1 = r * n + (n - 1) := by rw [Nat.succ_mul]; omega
    rw [h2, div_ring n r (n - 1) (by omega)]
    push_cast; ring
  · have h2 : r * n + j - 1 = r * n + (j - 1) := by omega
    rw [h2, div_ring n r (j - 1) (by omega)]

theorem linkVertex_right_eq {α : Type} (n k : Nat) (v : MeshVertex α)
    (h : Int.tdiv (v.id : Int) (n : Int) ≠ (k : Int)) :
    (linkVertex n k v).right =
      if Int.tdiv (v.id : Int) (n : Int) ≠ Int.tdiv ((v.id : Int) + 1) (n : Int)
      then some ((v.id : Int) - n + 1) else some ((v.id : Int) + 1) := by
  unfold linkVertex
  simp only [h, ne_eq, not_false_eq_true, if_true]
  split_ifs <;> rfl

theorem linkVertex_left_eq {α : Type} (n k : Nat) (v : MeshVertex α)
    (h : Int.tdiv (v.id : Int) (n : Int) ≠ (k : Int)) :
    (linkVertex n k v).left =
      if (v.id : Int) = 0 ∨ Int.tdiv (v.id : Int) (n : Int) ≠ Int.tdiv ((v.id : Int) - 1) (n : Int)
      then some ((v.id : Int) + n - 1) else some ((v.id : Int) - 1) := by
  unfold linkVertex
  simp only [h, ne_eq, not_false_eq_true, if_true]
  split_ifs <;> rfl

theorem linkVertex_top_eq {α : Type} (n k : Nat) (v : MeshVertex α)
    (h : Int.tdiv (v.id : Int) (n : Int) ≠ (k : Int)) :
    (linkVertex n k v).top =
      if Int.tdiv (v.id : Int) (n : Int) ≥ (k : Int) - 1
      then some ((k : Int) * n) else some ((v.id : Int) + n) := by
  unfold linkVertex
  simp only [h, ne_eq, not_false_eq_true, if_true]
  split_ifs <;> rfl

theorem linkVertex_bottom_eq {α : Type} (n k : Nat) (v : MeshVertex α)
    (h : Int.tdiv (v.id : Int) (n : Int) ≠ (k : Int)) :
    (linkVertex n k v).bottom =
      if Int.tdiv (v.id : Int) (n : Int) ≠ 0
      then some ((v.id : Int) - n) else v.bottom := by
  unfold linkVertex
  simp only [h, ne_eq, not_false_eq_true, if_true]
  split_ifs <;> rfl

/-- The four neighbours the linking loop gives a vertex whose identifier is
`r * n + j` with `r < k` and `j < n`. -/
theorem linkVertex_ring_fields {α : Type} (n k r j : Nat) (v : MeshVertex α)
    (hid : v.id = r * n + j) (hr : r < k) (hj : j < n) :
    (linkVertex n k v).right = some (((r * n + (j + 1) % n : Nat) : Int)) ∧
    (linkVertex n k v).left = some (((r * n + (j + n - 1) % n : Nat) : Int)) ∧
    (linkVertex n k v).top =
      (if r + 1 < k then some ((((r + 1) * n + j : Nat)) : Int) else some (((n * k : Nat)) : Int)) ∧
    (linkVertex n k v).bottom =
      (if 1 ≤ r then some ((((r - 1) * n + j : Nat)) : Int) else v.bottom) := by
  have h0 := tdiv_ring n r j hj
  have h1 := tdiv_ring_succ n r j hj
  have h2 := tdiv_ring_pred n r j hj
  rw [← hid] at h0 h1 h2
  have hik : Int.tdiv (v.id : Int) (n : Int) ≠ (k : Int) := by rw [h0]; omega
  have hidz : (v.id : Int) = (r : Int) * n + j := by rw [hid]; push_cast; ring
  refine ⟨?_, ?_, ?_, ?_⟩
  · rw [linkVertex_right_eq n k v hik, h0, h1]
    by_cases hj1 : j + 1 < n
    · rw [Nat.mod_eq_of_lt hj1]
      simp only [hj1, if_true, ne_eq, not_true_eq_false, if_false, hidz]
      push_cast; ring_nf
    · have hjn : j + 1 = n := by omega
      have hmod : (j + 1) % n = 0 := by rw [hjn]; exact Nat.mod_self n
      have hne : (r : Int) ≠ (r : Int) + 1 := by omega
      simp only [hj1, if_false, hne, ne_eq, not_false_eq_true, if_true, hmod, hidz]
      congr 1
      have : (n : Int) = j + 1 := by omega
      push_cast; rw [this]; ring
  · rw [linkVertex_left_eq n k v hik]
    by_cases hz : v.id = 0
    · have hj0 : j = 0 := by omega
      have hrn : r * n = 0 := by omega
      have hmod : (j + n - 1) % n = n - 1 := by
        rw [hj0, Nat.zero_add]; exact Nat.mod_eq_of_lt (by omega)
      have hzi : (v.id : Int) = 0 := by exact_mod_cast hz
      simp only [hzi, true_or, if_true, hmod, hrn]
      congr 1
      omega
    · have hzi : ¬ ((v.id : Int) = 0) := by exact_mod_cast hz
      rw [h0, h2 hz]
      by_cases hj0 : j = 0
      · have hmod : (j + n - 1) % n = n - 1 := by
          rw [hj0, Nat.zero_add]; exact Nat.mod_eq_of_lt (by omega)
        have hc : (r : Int) ≠ (if j = 0 then (r : Int) - 1 else (r : Int)) := by
          rw [if_pos hj0]; omega
        rw [if_pos (Or.inr hc), hmod, hidz]
        congr 1
        have : 1 ≤ n := by omega
        subst hj0
        push_cast [this]; ring
      · have hmod : (j + n - 1) % n = j - 1 := by
          have : j + n - 1 = (j - 1) + n := by omega
          rw [this, Nat.add_mod_right]; exact Nat.mod_eq_of_lt (by omega)
        have hc : ¬ ((v.id : Int) = 0 ∨
            (r : Int) ≠ (if j = 0 then (r : Int) - 1 else (r : Int))) := by
          rw [if_neg hj0]; simp [hzi]
        rw [if_neg hc, hmod, hidz]
        congr 1
        have : 1 ≤ j := by omega
        push_cast [this]; ring
  · rw [linkVertex_top_eq n k v hik, h0]
    by_cases hrk : r + 1 < k
    · have hge : ¬ ((r : Int) ≥ (k : Int) - 1) := by omega
      simp only [hge, if_false, hrk, if_true, hidz]
      congr 1
      push_cast; ring
    · have hge : (r : Int) ≥ (k : Int) - 1 := by omega
      simp only [hge, if_true, hrk, if_false]
      congr 1
      push_cast; ring
  · rw [linkVertex_bottom_eq n k v hik, h0]
    by_cases hr1 : 1 ≤ r
    · have hne : (r : Int) ≠ 0 := by omega
      simp only [hne, ne_eq, not_false_eq_true, if_true, hr1, hidz]
      congr 1
      push_cast [hr1]; ring
    · have hr0 : (r : Int) = 0 := by omega
      simp only [hr0, ne_eq, not_true_eq_false, if_false, hr1]


theorem ringVertex_id {α : Type} [LinearOrderedField α] (M : CMath α) (p : Parameters α)
    (i j : Nat) :
    (ringVertex M p i j).id = toGLushort (i * toGLushort p.capNumberOfVerticalDivisions + j) :=
  rfl

/-! ## C3: left and right neighbours -/

/-- C3, restricted to sixteen-bit identifiers. For a valid shape (`n ≥ 3`, `k ≥ 1`) whose ring vertices all
have an identifier that fits sixteen bits (`n * k ≤ 65536`), the linking step of
`generateBaseEllipsoid` gives the ring vertex at index `r * n + j` the right
neighbour `r * n + (j + 1) mod n` and the left neighbour
`r * n + (j + n - 1) mod n`; both lie in the ring `[r * n, r * n + n)`. -/
theorem C3_left_right_cyclic {α : Type} [LinearOrderedField α] (M : CMath α)
    (p : Parameters α)
    (hn3 : 3 ≤ p.capNumberOfVerticalDivisions) (hn : p.capNumberOfVerticalDivisions < 65536)
    (_hk1 : 1 ≤ p.capNumberOfHorizontalDivisions)
    (hfit : p.capNumberOfVerticalDivisions * p.capNumberOfHorizontalDivisions ≤ 65536)
    (r j : Nat) (hr : r < p.capNumberOfHorizontalDivisions)
    (hj : j < p.capNumberOfVerticalDivisions) :
    ((generateBaseEllipsoid M p)[r * p.capNumberOfVerticalDivisions + j]?).map
        (fun v => v.right) =
      some (some ((r * p.capNumberOfVerticalDivisions +
        (j + 1) % p.capNumberOfVerticalDivisions : Nat) : Int)) ∧
    ((generateBaseEllipsoid M p)[r * p.capNumberOfVerticalDivisions + j]?).map
        (fun v => v.left) =
      some (some ((r * p.capNumberOfVerticalDivisions +
        (j + p.capNumberOfVerticalDivisions - 1) % p.capNumberOfVerticalDivisions : Nat) : Int)) ∧
    (j + 1) % p.capNumberOfVerticalDivisions < p.capNumberOfVerticalDivisions ∧
    (j + p.capNumberOfVerticalDivisions - 1) % p.capNumberOfVerticalDivisions <
      p.capNumberOfVerticalDivisions := by
  have hk : p.capNumberOfHorizontalDivisions < 65536 := by
    rcases Nat.lt_or_ge p.capNumberOfHorizontalDivisions 65536 with h | h
    · exact h
    · have := Nat.mul_le_mul hn3 h
      omega
  have hN := toGLushort_of_lt hn
  have hK := toGLushort_of_lt hk
  have hring := generateBaseEllipsoid_ring M p r j (by rwa [hK]) (by rwa [hN])
  have hid := ringVertex_id M p r j
  rw [hN, hK] at hring
  rw [hN] at hid
  have hlt : r * p.capNumberOfVerticalDivisions + j < 65536 := by
    have h1 := Nat.mul_le_mul_right p.capNumberOfVerticalDivisions (Nat.succ_le_of_lt hr)
    rw [Nat.succ_mul, Nat.mul_comm p.capNumberOfHorizontalDivisions] at h1
    omega
  rw [toGLushort_of_lt hlt] at hid
  have hf := linkVertex_ring_fields p.capNumberOfVerticalDivisions
    p.capNumberOfHorizontalDivisions r j (ringVertex M p r j) hid hr hj
  have hpos : 0 < p.capNumberOfVerticalDivisions := by omega
  refine ⟨?_, ?_, Nat.mod_lt _ hpos, Nat.mod_lt _ hpos⟩
  · rw [hring]; simp only [Option.map_some']; rw [hf.1]
  · rw [hring]; simp only [Option.map_some']; rw [hf.2.1]

/-- C3 at the scenario shape: the last vertex of ring 1 (index `1 * 8 + 7`) has the
first vertex of that ring as right neighbour. -/
theorem C3_left_right_cyclic_witness :
    ((generateBaseEllipsoid realCMath (scenarioShape ℝ))[1 * 8 + 7]?).map (fun v => v.right) =
      some (some ((1 * 8 + (7 + 1) % 8 : Nat) : Int)) :=
  (C3_left_right_cyclic realCMath (scenarioShape ℝ) (by decide) (by decide) (by decide)
    (by decide) 1 7 (by decide) (by decide)).1

/-- C3 fails as stated at `n = 3`, `k = 21846`: the vertex at index
`21845 * 3 + 1 = 65536` carries the identifier `0`, so the linking loop gives it
the neighbours of vertex `0` (right `1`, left `2`) and not `65537` and `65535`. -/
theorem C3_counterexample :
    ((generateBaseEllipsoid realCMath (largeShape ℝ))[21845 * 3 + 1]?).map (fun v => v.right) =
        some (some 1) ∧
    ((generateBaseEllipsoid realCMath (largeShape ℝ))[21845 * 3 + 1]?).map (fun v => v.left) =
        some (some 2) ∧
    (1 : Int) ≠ ((21845 * 3 + (1 + 1) % 3 : Nat) : Int) ∧
    (2 : Int) ≠ ((21845 * 3 + (1 + 3 - 1) % 3 : Nat) : Int) := by
  have hring := generateBaseEllipsoid_ring realCMath (largeShape ℝ) 21845 1 (by decide)
    (by decide)
  have h3 : toGLushort (largeShape ℝ).capNumberOfVerticalDivisions = 3 := by decide
  have hk : toGLushort (largeShape ℝ).capNumberOfHorizontalDivisions = 21846 := by decide
  rw [h3, hk] at hring
  have hid : (ringVertex realCMath (largeShape ℝ) 21845 1).id = 0 := by
    rw [ringVertex_id, h3]; decide
  have hik : Int.tdiv ((ringVertex realCMath (largeShape ℝ) 21845 1).id : Int) ((3 : Nat) : Int)
      ≠ ((21846 : Nat) : Int) := by rw [hid]; decide
  refine ⟨?_, ?_, by decide, by decide⟩
  · rw [hring]; simp only [Option.map_some']
    rw [linkVertex_right_eq 3 21846 _ hik, hid]; decide
  · rw [hring]; simp only [Option.map_some']
    rw [linkVertex_left_eq 3 21846 _ hik, hid]; decide


/-! ## C4: top and bottom neighbours -/

/-- C4, restricted to sixteen-bit identifiers. For a valid shape (`n ≥ 3`, `k ≥ 1`) whose ring vertices all
have an identifier that fits sixteen bits (`n * k ≤ 65536`), the linking step
gives the ring vertex at index `r * n + j` the top neighbour `(r + 1) * n + j`
when `r < k - 1` and the apex `n * k` when `r = k - 1`, the bottom neighbour
`(r - 1) * n + j` when `r ≥ 1`, and leaves the bottom pointer unassigned when
`r = 0`; for `k = 1` every ring vertex has the apex as top and no bottom. -/
theorem C4_top_bottom {α : Type} [LinearOrderedField α] (M : CMath α)
    (p : Parameters α)
    (hn3 : 3 ≤ p.capNumberOfVerticalDivisions) (hn : p.capNumberOfVerticalDivisions < 65536)
    (_hk1 : 1 ≤ p.capNumberOfHorizontalDivisions)
    (hfit : p.capNumberOfVerticalDivisions * p.capNumberOfHorizontalDivisions ≤ 65536)
    (r j : Nat) (hr : r < p.capNumberOfHorizontalDivisions)
    (hj : j < p.capNumberOfVerticalDivisions) :
    (r + 1 < p.capNumberOfHorizontalDivisions →
      ((generateBaseEllipsoid M p)[r * p.capNumberOfVerticalDivisions + j]?).map
          (fun v => v.top) =
        some (some (((r + 1) * p.capNumberOfVerticalDivisions + j : Nat) : Int))) ∧
    (r + 1 = p.capNumberOfHorizontalDivisions →
      ((generateBaseEllipsoid M p)[r * p.capNumberOfVerticalDivisions + j]?).map
          (fun v => v.top) =
        some (some ((p.capNumberOfVerticalDivisions * p.capNumberOfHorizontalDivisions : Nat) :
          Int))) ∧
    (1 ≤ r →
      ((generateBaseEllipsoid M p)[r * p.capNumberOfVerticalDivisions + j]?).map
          (fun v => v.bottom) =
        some (some (((r - 1) * p.capNumberOfVerticalDivisions + j : Nat) : Int))) ∧
    (r = 0 →
      ((generateBaseEllipsoid M p)[r * p.capNumberOfVerticalDivisions + j]?).map
          (fun v => v.bottom) = some none) ∧
    (p.capNumberOfHorizontalDivisions = 1 →
      ((generateBaseEllipsoid M p)[r * p.capNumberOfVerticalDivisions + j]?).map
          (fun v => v.top) =
        some (some ((p.capNumberOfVerticalDivisions * p.capNumberOfHorizontalDivisions : Nat) :
          Int)) ∧
      ((generateBaseEllipsoid M p)[r * p.capNumberOfVerticalDivisions + j]?).map
          (fun v => v.bottom) = some none) := by
  have hk : p.capNumberOfHorizontalDivisions < 65536 := by
    rcases Nat.lt_or_ge p.capNumberOfHorizontalDivisions 65536 with h | h
    · exact h
    · have := Nat.mul_le_mul hn3 h
      omega
  have hN := toGLushort_of_lt hn
  have hK := toGLushort_of_lt hk
  have hring := generateBaseEllipsoid_ring M p r j (by rwa [hK]) (by rwa [hN])
  have hid := ringVertex_id M p r j
  rw [hN, hK] at hring
  rw [hN] at hid
  have hlt : r * p.capNumberOfVerticalDivisions + j < 65536 := by
    have h1 := Nat.mul_le_mul_right p.capNumberOfVerticalDivisions (Nat.succ_le_of_lt hr)
    rw [Nat.succ_mul, Nat.mul_comm p.capNumberOfHorizontalDivisions] at h1
    omega
  rw [toGLushort_of_lt hlt] at hid
  have hf := linkVertex_ring_fields p.capNumberOfVerticalDivisions
    p.capNumberOfHorizontalDivisions r j (ringVertex M p r j) hid hr hj
  have hb0 : (ringVertex M p r j).bottom = none := rfl
  have htop : r + 1 = p.capNumberOfHorizontalDivisions →
      ((generateBaseEllipsoid M p)[r * p.capNumberOfVerticalDivisions + j]?).map
          (fun v => v.top) =
        some (some ((p.capNumberOfVerticalDivisions * p.capNumberOfHorizontalDivisions : Nat) :
          Int)) := by
    intro h
    rw [hring]; simp only [Option.map_some']
    rw [hf.2.2.1, if_neg (by omega)]
  have hbot : r = 0 →
      ((generateBaseEllipsoid M p)[r * p.capNumberOfVerticalDivisions + j]?).map
          (fun v => v.bottom) = some none := by
    intro h
    rw [hring]; simp only [Option.map_some']
    rw [hf.2.2.2, if_neg (by omega), hb0]
  refine ⟨?_, htop, ?_, hbot, ?_⟩
  · intro h
    rw [hring]; simp only [Option.map_some']
    rw [hf.2.2.1, if_pos h]
  · intro h
    rw [hring]; simp only [Option.map_some']
    rw [hf.2.2.2, if_pos h]
  · intro h
    exact ⟨htop (by omega), hbot (by omega)⟩

/-- C4 at the scenario shape: vertex `5` of the last ring (index `3 * 8 + 5`) has
the apex, index `8 * 4`, as top neighbour. -/
theorem C4_top_bottom_witness :
    ((generateBaseEllipsoid realCMath (scenarioShape ℝ))[3 * 8 + 5]?).map (fun v => v.top) =
      some (some ((8 * 4 : Nat) : Int)) :=
  (C4_top_bottom realCMath (scenarioShape ℝ) (by decide) (by decide) (by decide)
    (by decide) 3 5 (by decide) (by decide)).2.1 (by decide)

/-- C4 fails as stated at `n = 3`, `k = 21846`: the vertex at index
`21845 * 3 + 1 = 65536`, in the last ring, carries the identifier `0`; the
linking loop gives it the top neighbour `3` instead of the apex `3 * 21846` and
assigns it no bottom instead of `21844 * 3 + 1`. -/
theorem C4_counterexample :
    ((generateBaseEllipsoid realCMath (largeShape ℝ))[21845 * 3 + 1]?).map (fun v => v.top) =
        some (some 3) ∧
    ((generateBaseEllipsoid realCMath (largeShape ℝ))[21845 * 3 + 1]?).map (fun v => v.bottom) =
        some none ∧
    (3 : Int) ≠ ((3 * 21846 : Nat) : Int) ∧
    (none : Option Int) ≠ some (((21845 - 1) * 3 + 1 : Nat) : Int) := by
  have hring := generateBaseEllipsoid_ring realCMath (largeShape ℝ) 21845 1 (by decide)
    (by decide)
  have h3 : toGLushort (largeShape ℝ).capNumberOfVerticalDivisions = 3 := by decide
  have hk : toGLushort (largeShape ℝ).capNumberOfHorizontalDivisions = 21846 := by decide
  rw [h3, hk] at hring
  have hid : (ringVertex realCMath (largeShape ℝ) 21845 1).id = 0 := by
    rw [ringVertex_id, h3]; decide
  have hik : Int.tdiv ((ringVertex realCMath (largeShape ℝ) 21845 1).id : Int) ((3 : Nat) : Int)
      ≠ ((21846 : Nat) : Int) := by rw [hid]; decide
  have hb0 : (ringVertex realCMath (largeShape ℝ) 21845 1).bottom = none := rfl
  refine ⟨?_, ?_, by decide, by decide⟩
  · rw [hring]; simp only [Option.map_some']
    rw [linkVertex_top_eq 3 21846 _ hik, hid]; decide
  · rw [hring]; simp only [Option.map_some']
    rw [linkVertex_bottom_eq 3 21846 _ hik, hid, hb0]; decide

@[simp] theorem realCMath_sqrt : realCMath.sqrt = Real.sqrt := rfl

@[simp] theorem realCMath_cos : realCMath.cos = Real.cos := rfl

@[simp] theorem realCMath_sin : realCMath.sin = Real.sin := rfl

@[simp] theorem realCMath_acos : realCMath.acos = Real.arccos := rfl

@[simp] theorem realCMath_pi : realCMath.pi = Real.pi := rfl

/-! ## C5: positions of the ring vertices -/

/-- C5. Over the reals, for a valid shape, with `h = height * (1 - stemHeightPart)`,
`b = capMaxRadius - junctionRadius`, `r = junctionRadius` and `a = (i / k) * h`,
`generateBaseEllipsoid` places vertex `j` of ring `i` at
`(R * cos (2 π j / n), R * sin (2 π j / n), (h / k) * i)` where `R = r` if `a ≤ 0`
and `R = sqrt (b² (1 - (a - h/2)² / (h/2)²)) + r - (r / h) a` otherwise, and
records `baseAngle = 2 π j / n` and `baseHeight = (h / k) * i`. -/
theorem C5_ring_positions (p : Parameters ℝ)
    (_hn3 : 3 ≤ p.capNumberOfVerticalDivisions) (hn : p.capNumberOfVerticalDivisions < 65536)
    (_hk1 : 1 ≤ p.capNumberOfHorizontalDivisions)
    (hk : p.capNumberOfHorizontalDivisions < 65536)
    (_hh : 0 < p.height) (_hs0 : 0 < p.stemHeightPart) (_hs1 : p.stemHeightPart < 1)
    (_hrad : p.junctionRadius ≤ p.capMaxRadius)
    (i j : Nat) (hi : i < p.capNumberOfHorizontalDivisions)
    (hj : j < p.capNumberOfVerticalDivisions) :
    let n : ℝ := (p.capNumberOfVerticalDivisions : ℝ)
    let k : ℝ := (p.capNumberOfHorizontalDivisions : ℝ)
    let h : ℝ := p.height * (1 - p.stemHeightPart)
    let b : ℝ := p.capMaxRadius - p.junctionRadius
    let r : ℝ := p.junctionRadius
    let a : ℝ := ((i : ℝ) / k) * h
    let R : ℝ :=
      if a ≤ 0 then r
      else Real.sqrt (b ^ 2 * (1 - (a - h / 2) ^ 2 / (h / 2) ^ 2)) + r - (r / h) * a
    ∃ v : MeshVertex ℝ,
      (generateBaseEllipsoid realCMath p)[i * p.capNumberOfVerticalDivisions + j]? = some v ∧
      v.position.x = R * Real.cos (2 * Real.pi * (j : ℝ) / n) ∧
      v.position.y = R * Real.sin (2 * Real.pi * (j : ℝ) / n) ∧
      v.position.z = (h / k) * (i : ℝ) ∧
      v.baseAngle = 2 * Real.pi * (j : ℝ) / n ∧
      v.baseHeight = (h / k) * (i : ℝ) := by
  intro n k h b r a R
  have hN := toGLushort_of_lt hn
  have hK := toGLushort_of_lt hk
  have hring := generateBaseEllipsoid_ring realCMath p i j (by rwa [hK]) (by rwa [hN])
  rw [hN, hK] at hring
  have hang : 2 * Real.pi / n * (j : ℝ) = 2 * Real.pi * (j : ℝ) / n := by ring
  have hR : newRadius realCMath p i = R := by
    simp only [newRadius, hK, mul_one, realCMath_sqrt]
  refine ⟨_, hring, ?_, ?_, ?_, ?_, ?_⟩
  · simp only [linkVertex_position, ringVertex, hN, hR, realCMath_cos, realCMath_sin, realCMath_pi]
    rw [hang]
  · simp only [linkVertex_position, ringVertex, hN, hR, realCMath_cos, realCMath_sin, realCMath_pi]
    rw [hang]
  · simp only [linkVertex_position, ringVertex, hK]
  · simp only [linkVertex_baseAngle, ringVertex, hN, realCMath_pi]
    rw [hang]
  · simp only [linkVertex_baseHeight, ringVertex, hK]

/-- C5 at the scenario shape: vertex `2` of ring `1` (index `1 * 8 + 2`) has
height `(10 * (1 - 0.3) / 4) * 1` and base angle `2 π 2 / 8`. -/
theorem C5_ring_positions_witness :
    ∃ v : MeshVertex ℝ,
      (generateBaseEllipsoid realCMath (scenarioShape ℝ))[1 * 8 + 2]? = some v ∧
      v.position.z = (10 * (1 - 3 / 10) / ((4 : Nat) : ℝ)) * ((1 : Nat) : ℝ) ∧
      v.baseAngle = 2 * Real.pi * ((2 : Nat) : ℝ) / ((8 : Nat) : ℝ) := by
  obtain ⟨v, hv, -, -, hz, ha, -⟩ :=
    C5_ring_positions (scenarioShape ℝ) (by decide) (by decide) (by decide) (by decide)
      (by norm_num [scenarioShape]) (by norm_num [scenarioShape])
      (by norm_num [scenarioShape]) (by norm_num [scenarioShape]) 1 2 (by decide) (by decide)
  exact ⟨v, hv, hz, ha⟩

/-! ## C6: base ring and apex -/

/-- C6. Over the reals, for a valid shape, `generateBaseEllipsoid` builds
`n * k + 1` vertices, puts every vertex of ring `0` at height `0` with
`x² + y² = junctionRadius²`, and puts the apex at
`(0, 0, height * (1 - stemHeightPart))` with `baseHeight` equal to that height.
The scenario `n = 8`, `k = 4`, `height = 10`, `stemHeightPart = 0.3`,
`junctionRadius = 1`, `capMaxRadius = 3` is `C6_base_ring_and_apex_witness`. -/
theorem C6_base_ring_and_apex (p : Parameters ℝ)
    (_hn3 : 3 ≤ p.capNumberOfVerticalDivisions) (hn : p.capNumberOfVerticalDivisions < 65536)
    (hk1 : 1 ≤ p.capNumberOfHorizontalDivisions)
    (hk : p.capNumberOfHorizontalDivisions < 65536)
    (_hh : 0 < p.height) (_hs0 : 0 < p.stemHeightPart) (_hs1 : p.stemHeightPart < 1)
    (_hrad : p.junctionRadius ≤ p.capMaxRadius) :
    (generateBaseEllipsoid realCMath p).length =
        p.capNumberOfVerticalDivisions * p.capNumberOfHorizontalDivisions + 1 ∧
    (∀ j : Nat, j < p.capNumberOfVerticalDivisions →
      ∃ v : MeshVertex ℝ, (generateBaseEllipsoid realCMath p)[j]? = some v ∧
        v.layer = 0 ∧ v.position.z = 0 ∧
        v.position.x ^ 2 + v.position.y ^ 2 = p.junctionRadius ^ 2) ∧
    (∃ v : MeshVertex ℝ,
      (generateBaseEllipsoid realCMath p)[p.capNumberOfVerticalDivisions *
        p.capNumberOfHorizontalDivisions]? = some v ∧
      v.position.x = 0 ∧ v.position.y = 0 ∧
      v.position.z = p.height * (1 - p.stemHeightPart) ∧
      v.baseHeight = p.height * (1 - p.stemHeightPart)) := by
  have hN := toGLushort_of_lt hn
  have hK := toGLushort_of_lt hk
  have hlen := generateBaseEllipsoid_length_aux realCMath p
  have hapex := generateBaseEllipsoid_apex realCMath p
  rw [hN, hK] at hlen hapex
  refine ⟨hlen, ?_, ⟨_, hapex, ?_, ?_, ?_, ?_⟩⟩
  · intro j hj
    have hring := generateBaseEllipsoid_ring realCMath p 0 j (by rw [hK]; omega) (by rwa [hN])
    rw [hN, hK, Nat.zero_mul, Nat.zero_add] at hring
    have hR : newRadius realCMath p 0 = p.junctionRadius := by
      simp [newRadius]
    refine ⟨_, hring, ?_, ?_, ?_⟩
    · simp [ringVertex]
    · simp [ringVertex]
    · simp only [linkVertex_position, ringVertex, hR, realCMath_cos, realCMath_sin]
      rw [mul_pow, mul_pow, ← mul_add, Real.cos_sq_add_sin_sq, mul_one]
  · simp [apexVertex]
  · simp [apexVertex]
  · simp [apexVertex]
  · simp [apexVertex]

/-- C6 at the scenario shape `n = 8`, `k = 4`, `height = 10`,
`stemHeightPart = 0.3`, `junctionRadius = 1`, `capMaxRadius = 3`: 33 vertices,
ring `0` of radius `1` at height `0`, apex at `(0, 0, 7)`. -/
theorem C6_base_ring_and_apex_witness :
    (generateBaseEllipsoid realCMath (scenarioShape ℝ)).length = 33 ∧
    (∀ j : Nat, j < 8 →
      ∃ v : MeshVertex ℝ, (generateBaseEllipsoid realCMath (scenarioShape ℝ))[j]? = some v ∧
        v.layer = 0 ∧ v.position.z = 0 ∧ v.position.x ^ 2 + v.position.y ^ 2 = 1) ∧
    (∃ v : MeshVertex ℝ, (generateBaseEllipsoid realCMath (scenarioShape ℝ))[32]? = some v ∧
      v.position.x = 0 ∧ v.position.y = 0 ∧ v.position.z = 7 ∧ v.baseHeight = 7) := by
  obtain ⟨hlen, hring, v, hv, hx, hy, hz, hb⟩ :=
    C6_base_ring_and_apex (scenarioShape ℝ) (by decide) (by decide) (by decide) (by decide)
      (by norm_num [scenarioShape]) (by norm_num [scenarioShape])
      (by norm_num [scenarioShape]) (by norm_num [scenarioShape])
  refine ⟨hlen, ?_, v, hv, hx, hy, ?_, ?_⟩
  · intro j hj
    obtain ⟨w, hw, hl, hz0, hr⟩ := hring j hj
    refine ⟨w, hw, hl, hz0, ?_⟩
    rw [hr]; norm_num [scenarioShape]
  · rw [hz]; norm_num [scenarioShape]
  · rw [hb]; norm_num [scenarioShape]

/-! ## C7: the plateau of the widening profile -/

theorem continuous_widenBaseBranch (h : ℝ) : Continuous (widenBaseBranch h) := by
  unfold widenBaseBranch
  fun_prop

theorem continuous_widenTipBranch (h : ℝ) : Continuous (widenTipBranch h) := by
  unfold widenTipBranch
  fun_prop

theorem widenBaseBranch_breakpoint {α : Type} [LinearOrderedField α] (h : α) :
    widenBaseBranch h (20 / 100 * h) = 12 / 10 := by
  simp only [widenBaseBranch]
  have : (20 / 100 * h - h * (20 / 100) : α) = 0 := by ring
  rw [this]; simp

theorem widenTipBranch_breakpoint {α : Type} [LinearOrderedField α] (h : α) :
    widenTipBranch h (99 / 100 * h) = 12 / 10 := by
  simp only [widenTipBranch]
  have : (99 / 100 * h - h * (99 / 100) : α) = 0 := by ring
  rw [this]; simp

theorem widenFactor_eq_ite_le (h x : ℝ) :
    widenFactor h x =
      if 20 / 100 * h ≤ x then (if x ≤ 99 / 100 * h then 12 / 10 else widenTipBranch h x)
      else widenBaseBranch h x := by
  unfold widenFactor
  simp only []
  by_cases h1 : x < 20 / 100 * h
  · rw [if_pos h1, if_neg (not_le.mpr h1)]
  · rw [if_neg h1, if_pos (not_lt.mp h1)]
    by_cases h2 : x > 99 / 100 * h
    · rw [if_pos h2, if_neg (not_le.mpr h2)]
    · rw [if_neg h2, if_pos (not_lt.mp h2)]

theorem continuous_widenFactor (h : ℝ) (hh : 0 < h) : Continuous (widenFactor h) := by
  have heq : widenFactor h = fun x =>
      if 20 / 100 * h ≤ x then (if x ≤ 99 / 100 * h then 12 / 10 else widenTipBranch h x)
      else widenBaseBranch h x := funext (widenFactor_eq_ite_le h)
  rw [heq]
  have hinner : Continuous (fun x : ℝ =>
      if x ≤ 99 / 100 * h then (12 / 10 : ℝ) else widenTipBranch h x) := by
    apply Continuous.if_le continuous_const (continuous_widenTipBranch h) continuous_id
      continuous_const
    intro x hx
    have hx2 : x = 99 / 100 * h := hx
    rw [hx2, widenTipBranch_breakpoint]
  apply Continuous.if_le hinner (continuous_widenBaseBranch h) continuous_const continuous_id
  intro x hx
  have hx2 : x = 20 / 100 * h := hx.symm
  rw [hx2, widenBaseBranch_breakpoint, if_pos (by linarith)]

/-- C7. In `widenCapRealisticaly` (`c = 1.2`, `pow = 3`, `d = 0.20`, `e = 0.99`),
for every cap height `h > 0` the factor equals `c` for every `x` with
`d h ≤ x ≤ e h`; the base-branch formula at `x = d h` and the tip-branch formula
at `x = e h` both equal `c`; and the factor, as a function of `x`, is continuous
at `d h` and at `e h`. -/
theorem C7_widen_plateau (h : ℝ) (hh : 0 < h) :
    (∀ x : ℝ, 20 / 100 * h ≤ x → x ≤ 99 / 100 * h → widenFactor h x = 12 / 10) ∧
    widenBaseBranch h (20 / 100 * h) = 12 / 10 ∧
    widenTipBranch h (99 / 100 * h) = 12 / 10 ∧
    ContinuousAt (widenFactor h) (20 / 100 * h) ∧
    ContinuousAt (widenFactor h) (99 / 100 * h) := by
  refine ⟨?_, widenBaseBranch_breakpoint h, widenTipBranch_breakpoint h,
    (continuous_widenFactor h hh).continuousAt, (continuous_widenFactor h hh).continuousAt⟩
  intro x h1 h2
  rw [widenFactor_eq_ite_le, if_pos h1, if_pos h2]

/-- C7 at cap height `7`: the factor at `x = 2`, between `1.4` and `6.93`, is
`1.2`. -/
theorem C7_widen_plateau_witness : widenFactor (7 : ℝ) 2 = 12 / 10 :=
  (C7_widen_plateau 7 (by norm_num)).1 2 (by norm_num) (by norm_num)

/-! ## C8: the base ring is left alone -/

/-- A vertex of the lattice whose layer is `0` has an identifier below `n`. -/
theorem layer_zero_id_lt {α : Type} [LinearOrderedField α] (M : CMath α) (p : Parameters α)
    (hn : p.capNumberOfVerticalDivisions < 65536)
    (hk1 : 1 ≤ p.capNumberOfHorizontalDivisions)
    (hk : p.capNumberOfHorizontalDivisions < 65536)
    (m : Nat) (v : MeshVertex α) (hv : (generateBaseEllipsoid M p)[m]? = some v)
    (hl : v.layer = 0) : v.id < p.capNumberOfVerticalDivisions := by
  have hN := toGLushort_of_lt hn
  have hK := toGLushort_of_lt hk
  rcases generateBaseEllipsoid_cases M p m v hv with ⟨_, _, hj, rfl⟩ | ⟨_, rfl⟩
  · rw [hN] at hj
    have hi : m / p.capNumberOfVerticalDivisions = 0 := by
      have h1 : (ringVertex M p (m / toGLushort p.capNumberOfVerticalDivisions)
          (m % toGLushort p.capNumberOfVerticalDivisions)).layer = 0 := by
        simpa using hl
      rw [hN] at h1
      have h2 : ((m / p.capNumberOfVerticalDivisions : Nat) : Int) = 0 := h1
      exact_mod_cast h2
    rw [linkVertex_id, ringVertex_id, hN, hi, Nat.zero_mul, Nat.zero_add,
      toGLushort_of_lt (by omega)]
    exact hj
  · exfalso
    have h1 : (apexVertex p).layer = 0 := by simpa using hl
    have h2 : ((toGLushort p.capNumberOfHorizontalDivisions : Nat) : Int) = 0 := h1
    rw [hK] at h2
    omega

theorem widenVertex_of_id_lt {α : Type} [LinearOrderedField α] (n : Nat) (h : α)
    (v : MeshVertex α) (hid : v.id < n) : widenVertex n h v = v := by
  have h0 : Int.tdiv (v.id : Int) (n : Int) = 0 := by
    rw [← Int.ofNat_tdiv, Nat.div_eq_of_lt hid]; rfl
  unfold widenVertex
  simp only [h0, ne_eq, not_true_eq_false, if_false]

theorem perlinVertex_of_layer_zero {α : Type} [LinearOrderedField α] (M : CMath α)
    (noise : α → α → Int → α) (octaves : Int) (h : α) (v : MeshVertex α) (hl : v.layer = 0) :
    perlinVertex M noise octaves h v = v := by
  unfold perlinVertex
  simp only [hl, ne_eq, not_true_eq_false, if_false]

theorem voronoiVertex_of_layer_zero {α : Type} [LinearOrderedField α] (M : CMath α)
    (getFactorAt : α → α → α) (h : α) (v : MeshVertex α) (hl : v.layer = 0) :
    voronoiVertex M getFactorAt h v = v := by
  unfold voronoiVertex
  simp only [hl, ne_eq, not_true_eq_false, if_false]

/-- C8. For a valid shape and a vertex `v` of the lattice with `layer == 0`, at
index `m`: `widenCapRealisticaly`, `applyPerlin` (any noise, any octave count)
and `applyVoronoiTesselation` (any field) leave `v` unchanged (its position and
every other field), so the vertex at index `m` after Build, Widen, Noise, Bend
(or with the tessellation as the deformation pass) is the vertex obtained by
bending the Build output directly. -/
theorem C8_base_ring_untouched {α : Type} [LinearOrderedField α] (M : CMath α)
    (p : Parameters α)
    (_hn3 : 3 ≤ p.capNumberOfVerticalDivisions) (hn : p.capNumberOfVerticalDivisions < 65536)
    (hk1 : 1 ≤ p.capNumberOfHorizontalDivisions)
    (hk : p.capNumberOfHorizontalDivisions < 65536)
    (m : Nat) (v : MeshVertex α) (hv : (generateBaseEllipsoid M p)[m]? = some v)
    (hl : v.layer = 0) :
    (widenCapRealisticaly p (generateBaseEllipsoid M p))[m]? = some v ∧
    (∀ (noise : α → α → Int → α) (octaves : Int) (vs : List (MeshVertex α)),
      vs[m]? = some v → (applyPerlin M noise p octaves vs)[m]? = some v) ∧
    (∀ (getFactorAt : α → α → α) (vs : List (MeshVertex α)),
      vs[m]? = some v → (applyVoronoiTesselation M getFactorAt p vs)[m]? = some v) ∧
    (∀ (noise : α → α → Int → α) (bezier : MeshVertex α → α → α → MeshVertex α),
      (Cap M noise bezier p)[m]? =
        (applyBezierCurve bezier p (generateBaseEllipsoid M p))[m]?) ∧
    (∀ (getFactorAt : α → α → α) (bezier : MeshVertex α → α → α → MeshVertex α),
      (applyBezierCurve bezier p (applyVoronoiTesselation M getFactorAt p
          (widenCapRealisticaly p (generateBaseEllipsoid M p))))[m]? =
        (applyBezierCurve bezier p (generateBaseEllipsoid M p))[m]?) := by
  have hN := toGLushort_of_lt hn
  have hid := layer_zero_id_lt M p hn hk1 hk m v hv hl
  have hw : (widenCapRealisticaly p (generateBaseEllipsoid M p))[m]? = some v := by
    simp only [widenCapRealisticaly, List.getElem?_map, hv, Option.map_some', hN]
    rw [widenVertex_of_id_lt _ _ v hid]
  have hp : ∀ (noise : α → α → Int → α) (octaves : Int) (vs : List (MeshVertex α)),
      vs[m]? = some v → (applyPerlin M noise p octaves vs)[m]? = some v := by
    intro noise octaves vs hvs
    simp only [applyPerlin, List.getElem?_map, hvs, Option.map_some']
    rw [perlinVertex_of_layer_zero M noise octaves _ v hl]
  have hvo : ∀ (getFactorAt : α → α → α) (vs : List (MeshVertex α)),
      vs[m]? = some v → (applyVoronoiTesselation M getFactorAt p vs)[m]? = some v := by
    intro g vs hvs
    simp only [applyVoronoiTesselation, List.getElem?_map, hvs, Option.map_some']
    rw [voronoiVertex_of_layer_zero M g _ v hl]
  refine ⟨hw, hp, hvo, ?_, ?_⟩
  · intro noise bezier
    have h1 := hp noise 18 _ hw
    simp only [Cap, applyBezierCurve, List.getElem?_map, h1, hv]
  · intro g bezier
    have h1 := hvo g _ hw
    simp only [applyBezierCurve, List.getElem?_map, h1, hv]

/-- C8 at the scenario shape: vertex `3` of the base ring is the same after the
widening pass as after the build. -/
theorem C8_base_ring_untouched_witness :
    (widenCapRealisticaly (scenarioShape ℝ)
        (generateBaseEllipsoid realCMath (scenarioShape ℝ)))[3]? =
      some (linkVertex 8 4 (ringVertex realCMath (scenarioShape ℝ) 0 3)) :=
  (C8_base_ring_untouched realCMath (scenarioShape ℝ) (by decide) (by decide) (by decide)
    (by decide) 3 (linkVertex 8 4 (ringVertex realCMath (scenarioShape ℝ) 0 3))
    (generateBaseEllipsoid_ring realCMath (scenarioShape ℝ) 0 3 (by decide) (by decide))
    (by rw [linkVertex_layer]; rfl)).1

/-! ## C9: the degenerate-direction guard -/

theorem applyRadius_x {α : Type} [LinearOrderedField α] (M : CMath α) (h r : α)
    (v : MeshVertex α) (hx : |sphereX M h v| ≤ 1 / 100) :
    (applyRadius M h r v).position.x = v.position.x := by
  simp only [applyRadius, if_pos hx, mul_one]

theorem applyRadius_y {α : Type} [LinearOrderedField α] (M : CMath α) (h r : α)
    (v : MeshVertex α) (hy : |sphereY M h v| ≤ 1 / 100) :
    (applyRadius M h r v).position.y = v.position.y := by
  simp only [applyRadius, if_pos hy, mul_one]

theorem perlinVertex_x {α : Type} [LinearOrderedField α] (M : CMath α)
    (noise : α → α → Int → α) (octaves : Int) (h : α) (v : MeshVertex α)
    (hx : |sphereX M h v| ≤ 1 / 100) :
    (perlinVertex M noise octaves h v).position.x = v.position.x := by
  unfold perlinVertex
  split_ifs
  · exact applyRadius_x M h _ v hx
  · rfl

theorem perlinVertex_y {α : Type} [LinearOrderedField α] (M : CMath α)
    (noise : α → α → Int → α) (octaves : Int) (h : α) (v : MeshVertex α)
    (hy : |sphereY M h v| ≤ 1 / 100) :
    (perlinVertex M noise octaves h v).position.y = v.position.y := by
  unfold perlinVertex
  split_ifs
  · exact applyRadius_y M h _ v hy
  · rfl

theorem voronoiVertex_x {α : Type} [LinearOrderedField α] (M : CMath α)
    (getFactorAt : α → α → α) (h : α) (v : MeshVertex α)
    (hx : |sphereX M h v| ≤ 1 / 100) :
    (voronoiVertex M getFactorAt h v).position.x = v.position.x := by
  unfold voronoiVertex
  simp only []
  split_ifs
  · exact applyRadius_x M h _ { v with color := ⟨225 / 255, 188 / 255, 144 / 255⟩ } hx
  · exact applyRadius_x M h _ v hx
  · rfl

theorem voronoiVertex_y {α : Type} [LinearOrderedField α] (M : CMath α)
    (getFactorAt : α → α → α) (h : α) (v : MeshVertex α)
    (hy : |sphereY M h v| ≤ 1 / 100) :
    (voronoiVertex M getFactorAt h v).position.y = v.position.y := by
  unfold voronoiVertex
  simp only []
  split_ifs
  · exact applyRadius_y M h _ { v with color := ⟨225 / 255, 188 / 255, 144 / 255⟩ } hy
  · exact applyRadius_y M h _ v hy
  · rfl

/-- C9. In `applyPerlin`, for every vertex `v` of the collection, every noise
function and every octave count, with `h = height * (1 - stemHeightPart)`: if
`|sX| ≤ 0.01` the x-coordinate after the pass is the x-coordinate before it, and
if `|sY| ≤ 0.01` the y-coordinate is unchanged; the same holds in
`applyVoronoiTesselation` for every tessellation field. -/
theorem C9_degenerate_guard {α : Type} [LinearOrderedField α] (M : CMath α)
    (noise : α → α → Int → α) (octaves : Int) (getFactorAt : α → α → α)
    (p : Parameters α) (vs : List (MeshVertex α)) (m : Nat) (v : MeshVertex α)
    (hv : vs[m]? = some v) :
    (|sphereX M (p.height * (1 - p.stemHeightPart)) v| ≤ 1 / 100 →
      ((applyPerlin M noise p octaves vs)[m]?).map (fun w => w.position.x) =
        some v.position.x) ∧
    (|sphereY M (p.height * (1 - p.stemHeightPart)) v| ≤ 1 / 100 →
      ((applyPerlin M noise p octaves vs)[m]?).map (fun w => w.position.y) =
        some v.position.y) ∧
    (|sphereX M (p.height * (1 - p.stemHeightPart)) v| ≤ 1 / 100 →
      ((applyVoronoiTesselation M getFactorAt p vs)[m]?).map (fun w => w.position.x) =
        some v.position.x) ∧
    (|sphereY M (p.height * (1 - p.stemHeightPart)) v| ≤ 1 / 100 →
      ((applyVoronoiTesselation M getFactorAt p vs)[m]?).map (fun w => w.position.y) =
        some v.position.y) := by
  refine ⟨?_, ?_, ?_, ?_⟩
  · intro hx
    simp only [applyPerlin, List.getElem?_map, hv, Option.map_some']
    rw [perlinVertex_x M noise octaves _ v hx]
  · intro hy
    simp only [applyPerlin, List.getElem?_map, hv, Option.map_some']
    rw [perlinVertex_y M noise octaves _ v hy]
  · intro hx
    simp only [applyVoronoiTesselation, List.getElem?_map, hv, Option.map_some']
    rw [voronoiVertex_x M getFactorAt _ v hx]
  · intro hy
    simp only [applyVoronoiTesselation, List.getElem?_map, hv, Option.map_some']
    rw [voronoiVertex_y M getFactorAt _ v hy]

theorem sphereZ_apexVertex (p : Parameters ℝ) (hh : 0 < p.height) (hs1 : p.stemHeightPart < 1) :
    sphereZ (p.height * (1 - p.stemHeightPart)) (apexVertex p) = 1 := by
  have hpos : 0 < p.height * (1 - p.stemHeightPart) := mul_pos hh (by linarith)
  simp only [sphereZ, apexVertex]
  field_simp
  ring

/-- C9 at the apex of the scenario shape, whose `sX` is `0`: a noise value of
`1/2` leaves its x-coordinate as it was. -/
theorem C9_degenerate_guard_witness :
    ((applyPerlin realCMath (fun _ _ _ => 1 / 2) (scenarioShape ℝ) 18
        [apexVertex (scenarioShape ℝ)])[0]?).map (fun w => w.position.x) =
      some (apexVertex (scenarioShape ℝ)).position.x :=
  (C9_degenerate_guard realCMath (fun _ _ _ => 1 / 2) 18 (fun _ _ => 1) (scenarioShape ℝ)
    [apexVertex (scenarioShape ℝ)] 0 (apexVertex (scenarioShape ℝ)) rfl).1
    (by
      have hz := sphereZ_apexVertex (scenarioShape ℝ) (by norm_num [scenarioShape])
        (by norm_num [scenarioShape])
      simp only [sphereX, hz]
      norm_num)

/-! ## C10: the apex stays on the axis -/

theorem widenVertex_xy_zero {α : Type} [LinearOrderedField α] (n : Nat) (h : α)
    (v : MeshVertex α) (hx : v.position.x = 0) (hy : v.position.y = 0) :
    (widenVertex n h v).position.x = 0 ∧ (widenVertex n h v).position.y = 0 := by
  unfold widenVertex
  simp only []
  split_ifs
  · simp [hx, hy]
  · exact ⟨hx, hy⟩

theorem perlinVertex_xy_zero {α : Type} [LinearOrderedField α] (M : CMath α)
    (noise : α → α → Int → α) (octaves : Int) (h : α) (v : MeshVertex α)
    (hx : v.position.x = 0) (hy : v.position.y = 0) :
    (perlinVertex M noise octaves h v).position.x = 0 ∧
    (perlinVertex M noise octaves h v).position.y = 0 := by
  unfold perlinVertex
  split_ifs
  · simp [applyRadius, hx, hy]
  · exact ⟨hx, hy⟩

theorem voronoiVertex_xy_zero {α : Type} [LinearOrderedField α] (M : CMath α)
    (getFactorAt : α → α → α) (h : α) (v : MeshVertex α)
    (hx : v.position.x = 0) (hy : v.position.y = 0) :
    (voronoiVertex M getFactorAt h v).position.x = 0 ∧
    (voronoiVertex M getFactorAt h v).position.y = 0 := by
  unfold voronoiVertex
  simp only []
  split_ifs
  · simp [applyRadius, hx, hy]
  · simp [applyRadius, hx, hy]
  · exact ⟨hx, hy⟩

/-- C10. Over the reals, for a valid shape, every noise function and every
tessellation field: the apex (index `n * k`, layer `k`) has `x = 0` and `y = 0`
after `generateBaseEllipsoid`, after `widenCapRealisticaly`, and after
`widenCapRealisticaly` followed by `applyPerlin` or by
`applyVoronoiTesselation`; its `sZ` is `1` and its `sX` and `sY` are `0`, within
the threshold `0.01` of the guard on both axes. -/
theorem C10_apex_stability (p : Parameters ℝ)
    (_hn3 : 3 ≤ p.capNumberOfVerticalDivisions) (hn : p.capNumberOfVerticalDivisions < 65536)
    (_hk1 : 1 ≤ p.capNumberOfHorizontalDivisions)
    (hk : p.capNumberOfHorizontalDivisions < 65536)
    (hh : 0 < p.height) (_hs0 : 0 < p.stemHeightPart) (hs1 : p.stemHeightPart < 1)
    (noise : ℝ → ℝ → Int → ℝ) (octaves : Int) (getFactorAt : ℝ → ℝ → ℝ) :
    ∃ v : MeshVertex ℝ,
      (generateBaseEllipsoid realCMath p)[p.capNumberOfVerticalDivisions *
        p.capNumberOfHorizontalDivisions]? = some v ∧
      v.layer = (p.capNumberOfHorizontalDivisions : Int) ∧
      v.position.x = 0 ∧ v.position.y = 0 ∧
      sphereZ (p.height * (1 - p.stemHeightPart)) v = 1 ∧
      sphereX realCMath (p.height * (1 - p.stemHeightPart)) v = 0 ∧
      sphereY realCMath (p.height * (1 - p.stemHeightPart)) v = 0 ∧
      ((widenCapRealisticaly p (generateBaseEllipsoid realCMath p))[
          p.capNumberOfVerticalDivisions * p.capNumberOfHorizontalDivisions]?).map
        (fun w => (w.position.x, w.position.y)) = some (0, 0) ∧
      ((applyPerlin realCMath noise p octaves
          (widenCapRealisticaly p (generateBaseEllipsoid realCMath p)))[
          p.capNumberOfVerticalDivisions * p.capNumberOfHorizontalDivisions]?).map
        (fun w => (w.position.x, w.position.y)) = some (0, 0) ∧
      ((applyVoronoiTesselation realCMath getFactorAt p
          (widenCapRealisticaly p (generateBaseEllipsoid realCMath p)))[
          p.capNumberOfVerticalDivisions * p.capNumberOfHorizontalDivisions]?).map
        (fun w => (w.position.x, w.position.y)) = some (0, 0) := by
  have hN := toGLushort_of_lt hn
  have hK := toGLushort_of_lt hk
  have hapex := generateBaseEllipsoid_apex realCMath p
  rw [hN, hK] at hapex
  have hz : sphereZ (p.height * (1 - p.stemHeightPart))
      (linkVertex p.capNumberOfVerticalDivisions p.capNumberOfHorizontalDivisions
        (apexVertex p)) = 1 := by
    have h1 := sphereZ_apexVertex p hh hs1
    simpa [sphereZ] using h1
  have hx0 : (linkVertex p.capNumberOfVerticalDivisions p.capNumberOfHorizontalDivisions
      (apexVertex p)).position.x = 0 := by simp [apexVertex]
  have hy0 : (linkVertex p.capNumberOfVerticalDivisions p.capNumberOfHorizontalDivisions
      (apexVertex p)).position.y = 0 := by simp [apexVertex]
  have hw := widenVertex_xy_zero p.capNumberOfVerticalDivisions
    (p.height * (1 - p.stemHeightPart)) _ hx0 hy0
  refine ⟨_, hapex, ?_, hx0, hy0, hz, ?_, ?_, ?_, ?_, ?_⟩
  · simp [apexVertex, hK]
  · simp only [sphereX, hz]; norm_num
  · simp only [sphereY, hz]; norm_num
  · simp only [widenCapRealisticaly, List.getElem?_map, hapex, Option.map_some', hN]
    rw [hw.1, hw.2]
  · have hq := perlinVertex_xy_zero realCMath noise octaves (p.height * (1 - p.stemHeightPart))
      _ hw.1 hw.2
    simp only [applyPerlin, widenCapRealisticaly, List.getElem?_map, hapex, Option.map_some', hN]
    rw [hq.1, hq.2]
  · have hq := voronoiVertex_xy_zero realCMath getFactorAt (p.height * (1 - p.stemHeightPart))
      _ hw.1 hw.2
    simp only [applyVoronoiTesselation, widenCapRealisticaly, List.getElem?_map, hapex,
      Option.map_some', hN]
    rw [hq.1, hq.2]

/-- C10 at the scenario shape, with a noise that is `1/2` everywhere: after the
widening and the noise passes the apex (index `32`) is still at `x = 0`,
`y = 0`. -/
theorem C10_apex_stability_witness :
    ((applyPerlin realCMath (fun _ _ _ => 1 / 2) (scenarioShape ℝ) 18
        (widenCapRealisticaly (scenarioShape ℝ)
          (generateBaseEllipsoid realCMath (scenarioShape ℝ))))[32]?).map
      (fun w => (w.position.x, w.position.y)) = some (0, 0) := by
  obtain ⟨_, _, _, _, _, _, _, _, _, h, _⟩ :=
    C10_apex_stability (scenarioShape ℝ) (by decide) (by decide) (by decide) (by decide)
      (by norm_num [scenarioShape]) (by norm_num [scenarioShape])
      (by norm_num [scenarioShape]) (fun _ _ _ => 1 / 2) 18 (fun _ _ => 1)
  exact h

/-! ## Frame lemmas of the passes -/

theorem widenVertex_frame {α : Type} [LinearOrderedField α] (n : Nat) (h : α)
    (v : MeshVertex α) :
    (widenVertex n h v).position.z = v.position.z ∧
    (widenVertex n h v).baseHeight = v.baseHeight ∧
    (widenVertex n h v).baseAngle = v.baseAngle ∧
    (widenVertex n h v).layer = v.layer ∧
    (widenVertex n h v).id = v.id := by
  unfold widenVertex
  simp only []
  split_ifs <;> exact ⟨rfl, rfl, rfl, rfl, rfl⟩

theorem perlinVertex_frame {α : Type} [LinearOrderedField α] (M : CMath α)
    (noise : α → α → Int → α) (octaves : Int) (h : α) (v : MeshVertex α) :
    (perlinVertex M noise octaves h v).position.z = v.position.z ∧
    (perlinVertex M noise octaves h v).baseHeight = v.baseHeight ∧
    (perlinVertex M noise octaves h v).baseAngle = v.baseAngle ∧
    (perlinVertex M noise octaves h v).layer = v.layer ∧
    (perlinVertex M noise octaves h v).id = v.id := by
  unfold perlinVertex
  split_ifs <;> exact ⟨rfl, rfl, rfl, rfl, rfl⟩

theorem voronoiVertex_frame {α : Type} [LinearOrderedField α] (M : CMath α)
    (getFactorAt : α → α → α) (h : α) (v : MeshVertex α) :
    (voronoiVertex M getFactorAt h v).position.z = v.position.z ∧
    (voronoiVertex M getFactorAt h v).baseHeight = v.baseHeight ∧
    (voronoiVertex M getFactorAt h v).baseAngle = v.baseAngle ∧
    (voronoiVertex M getFactorAt h v).layer = v.layer ∧
    (voronoiVertex M getFactorAt h v).id = v.id := by
  unfold voronoiVertex
  simp only []
  split_ifs <;> exact ⟨rfl, rfl, rfl, rfl, rfl⟩

/-- Every vertex of the lattice is built with `z` equal to `baseHeight`. -/
theorem generateBaseEllipsoid_z_eq_baseHeight {α : Type} [LinearOrderedField α] (M : CMath α)
    (p : Parameters α) (m : Nat) (v : MeshVertex α)
    (hv : (generateBaseEllipsoid M p)[m]? = some v) : v.position.z = v.baseHeight := by
  rcases generateBaseEllipsoid_cases M p m v hv with ⟨_, _, _, rfl⟩ | ⟨_, rfl⟩
  · simp [ringVertex]
  · simp [apexVertex]

/-! ## C11: the passes leave `z` alone -/

/-- C11. For every vertex of a collection, whatever its layer,
`widenCapRealisticaly`, `applyPerlin` and `applyVoronoiTesselation` leave the
z-coordinate unchanged; hence every vertex that reaches the bend pass (after the
widening and the noise pass, or the tessellation pass) still has `z` equal to its
`baseHeight`. -/
theorem C11_z_unchanged {α : Type} [LinearOrderedField α] (M : CMath α)
    (noise : α → α → Int → α) (octaves : Int) (getFactorAt : α → α → α) (p : Parameters α) :
    (∀ (vs : List (MeshVertex α)) (m : Nat) (v : MeshVertex α), vs[m]? = some v →
      ((widenCapRealisticaly p vs)[m]?).map (fun w => w.position.z) = some v.position.z) ∧
    (∀ (vs : List (MeshVertex α)) (m : Nat) (v : MeshVertex α), vs[m]? = some v →
      ((applyPerlin M noise p octaves vs)[m]?).map (fun w => w.position.z) =
        some v.position.z) ∧
    (∀ (vs : List (MeshVertex α)) (m : Nat) (v : MeshVertex α), vs[m]? = some v →
      ((applyVoronoiTesselation M getFactorAt p vs)[m]?).map (fun w => w.position.z) =
        some v.position.z) ∧
    (∀ (m : Nat) (w : MeshVertex α),
      (applyPerlin M noise p octaves
        (widenCapRealisticaly p (generateBaseEllipsoid M p)))[m]? = some w →
      w.position.z = w.baseHeight) ∧
    (∀ (m : Nat) (w : MeshVertex α),
      (applyVoronoiTesselation M getFactorAt p
        (widenCapRealisticaly p (generateBaseEllipsoid M p)))[m]? = some w →
      w.position.z = w.baseHeight) := by
  refine ⟨?_, ?_, ?_, ?_, ?_⟩
  · intro vs m v hv
    simp only [widenCapRealisticaly, List.getElem?_map, hv, Option.map_some']
    rw [(widenVertex_frame _ _ v).1]
  · intro vs m v hv
    simp only [applyPerlin, List.getElem?_map, hv, Option.map_some']
    rw [(perlinVertex_frame M noise octaves _ v).1]
  · intro vs m v hv
    simp only [applyVoronoiTesselation, List.getElem?_map, hv, Option.map_some']
    rw [(voronoiVertex_frame M getFactorAt _ v).1]
  · intro m w hw
    simp only [applyPerlin, widenCapRealisticaly, List.getElem?_map, Option.map_eq_some'] at hw
    obtain ⟨a, ⟨v, hv, rfl⟩, rfl⟩ := hw
    have hz := generateBaseEllipsoid_z_eq_baseHeight M p m v hv
    rw [(perlinVertex_frame M noise octaves _ _).1, (perlinVertex_frame M noise octaves _ _).2.1,
      (widenVertex_frame _ _ v).1, (widenVertex_frame _ _ v).2.1, hz]
  · intro m w hw
    simp only [applyVoronoiTesselation, widenCapRealisticaly, List.getElem?_map,
      Option.map_eq_some'] at hw
    obtain ⟨a, ⟨v, hv, rfl⟩, rfl⟩ := hw
    have hz := generateBaseEllipsoid_z_eq_baseHeight M p m v hv
    rw [(voronoiVertex_frame M getFactorAt _ _).1, (voronoiVertex_frame M getFactorAt _ _).2.1,
      (widenVertex_frame _ _ v).1, (widenVertex_frame _ _ v).2.1, hz]

/-- C11 on a one-vertex collection, the apex of the scenario shape: the widening
pass leaves its `z` as it was. -/
theorem C11_z_unchanged_witness :
    ((widenCapRealisticaly (scenarioShape ℝ) [apexVertex (scenarioShape ℝ)])[0]?).map
        (fun w => w.position.z) = some (apexVertex (scenarioShape ℝ)).position.z :=
  (C11_z_unchanged realCMath (fun _ _ _ => 1 / 2) 18 (fun _ _ => 1) (scenarioShape ℝ)).1
    [apexVertex (scenarioShape ℝ)] 0 (apexVertex (scenarioShape ℝ)) rfl

/-! ## C12 and C13: the two ramps of the widening profile -/

theorem cube_le_cube {a b : ℝ} (h : a ≤ b) : a ^ 3 ≤ b ^ 3 :=
  (Odd.strictMono_pow (by decide : Odd 3)).monotone h

theorem widenFactor_tip (h x : ℝ) (hh : 0 < h) (hx : 99 / 100 * h < x) :
    widenFactor h x = 12 / 10 + 12 / 10 * ((x - 99 / 100 * h) / (h / 100)) ^ 3 := by
  have h1 : ¬ x < 20 / 100 * h := by
    have : 20 / 100 * h < 99 / 100 * h := by linarith
    linarith
  unfold widenFactor
  simp only []
  rw [if_neg h1, if_pos hx]
  unfold widenTipBranch
  simp only []
  have h2 : h - h * (99 / 100) = h / 100 := by ring
  have h3 : x - h * (99 / 100) = x - 99 / 100 * h := by ring
  rw [h2, h3, div_pow]
  have h4 : (h / 100) ^ 3 ≠ 0 := by positivity
  field_simp
  ring

theorem widenFactor_base (h x : ℝ) (hh : 0 < h) (hx : x < 20 / 100 * h) :
    widenFactor h x = 12 / 10 + 12 / 10 * ((x - 20 / 100 * h) / (20 / 100 * h)) ^ 3 := by
  unfold widenFactor
  simp only []
  rw [if_pos hx]
  unfold widenBaseBranch
  simp only []
  have h2 : h * (20 / 100) = 20 / 100 * h := by ring
  rw [h2, div_pow]
  have h4 : (20 / 100 * h) ^ 3 ≠ 0 := by positivity
  field_simp
  ring

/-- C12: what the code computes above `e h`. For every cap height `h > 0` and every
`x > 0.99 h` the factor of `widenCapRealisticaly` is `c + c ((x - e h)/(h - e h))³`,
strictly above `c = 1.2`, and it is `2 c = 2.4` at `x = h`; at `h = 7` it is
`1.35` at `x = 6.965` and `2.4` at `x = 7`.  With `k = 200` rings and
`height = 10`, `stemHeightPart = 0.3`, the vertices of ring `199` are at height
`6.965` and the widening pass scales their `x` by `1 + 1.35`. -/
theorem C12_tip_factor_above_max :
    (∀ h x : ℝ, 0 < h → 99 / 100 * h < x → 12 / 10 < widenFactor h x) ∧
    (∀ h : ℝ, 0 < h → widenFactor h h = 24 / 10) ∧
    widenFactor (7 : ℝ) (6965 / 1000) = 135 / 100 ∧
    widenFactor (7 : ℝ) 7 = 24 / 10 ∧
    (∃ v : MeshVertex ℝ,
      (generateBaseEllipsoid realCMath (tallShape ℝ))[199 * 8 + 0]? = some v ∧
      v.position.z = 6965 / 1000 ∧
      ((widenCapRealisticaly (tallShape ℝ)
          (generateBaseEllipsoid realCMath (tallShape ℝ)))[199 * 8 + 0]?).map
        (fun w => w.position.x) = some (135 / 100 * v.position.x + v.position.x)) := by
  have h7 : widenFactor (7 : ℝ) (6965 / 1000) = 135 / 100 := by
    rw [widenFactor_tip 7 (6965 / 1000) (by norm_num) (by norm_num)]
    norm_num
  refine ⟨?_, ?_, h7, ?_, ?_⟩
  · intro h x hh hx
    rw [widenFactor_tip h x hh hx]
    have h1 : 0 < (x - 99 / 100 * h) / (h / 100) := div_pos (by linarith) (by linarith)
    have h2 : 0 < ((x - 99 / 100 * h) / (h / 100)) ^ 3 := pow_pos h1 3
    linarith
  · intro h hh
    rw [widenFactor_tip h h hh (by linarith)]
    have h1 : (h - 99 / 100 * h) / (h / 100) = 1 := by
      field_simp
      ring
    rw [h1]; norm_num
  · rw [widenFactor_tip 7 7 (by norm_num) (by norm_num)]
    norm_num
  · have hring := generateBaseEllipsoid_ring realCMath (tallShape ℝ) 199 0 (by decide)
      (by decide)
    have hn : toGLushort (tallShape ℝ).capNumberOfVerticalDivisions = 8 := by decide
    have hk : toGLushort (tallShape ℝ).capNumberOfHorizontalDivisions = 200 := by decide
    rw [hn, hk] at hring
    have hz : (linkVertex 8 200 (ringVertex realCMath (tallShape ℝ) 199 0)).position.z =
        6965 / 1000 := by
      simp only [linkVertex_position, ringVertex, hk]
      norm_num [tallShape]
    have hh : (tallShape ℝ).height * (1 - (tallShape ℝ).stemHeightPart) = 7 := by
      norm_num [tallShape]
    have hid : (linkVertex 8 200 (ringVertex realCMath (tallShape ℝ) 199 0)).id = 1592 := by
      rw [linkVertex_id, ringVertex_id, hn]; decide
    refine ⟨_, hring, hz, ?_⟩
    simp only [widenCapRealisticaly, List.getElem?_map, hring, Option.map_some', hn, hh]
    unfold widenVertex
    simp only [hid, hz, h7]
    have hsel : Int.tdiv ((1592 : Nat) : Int) ((8 : Nat) : Int) ≠ 0 := by decide
    rw [if_pos hsel]

/-- C13. For every cap height `h > 0`, the factor of `widenCapRealisticaly` is
non-decreasing in `x` over `0 ≤ x ≤ d h`, is `0` at `x = 0` and `c = 1.2` at
`x = d h`, and so lies in `[0, c]` on that interval. -/
theorem C13_base_ramp (h : ℝ) (hh : 0 < h) :
    (∀ x y : ℝ, 0 ≤ x → x ≤ y → y ≤ 20 / 100 * h → widenFactor h x ≤ widenFactor h y) ∧
    widenFactor h 0 = 0 ∧
    widenFactor h (20 / 100 * h) = 12 / 10 ∧
    (∀ x : ℝ, 0 ≤ x → x ≤ 20 / 100 * h →
      0 ≤ widenFactor h x ∧ widenFactor h x ≤ 12 / 10) := by
  have hplateau : widenFactor h (20 / 100 * h) = 12 / 10 := by
    rw [widenFactor_eq_ite_le, if_pos (le_refl _), if_pos (by linarith)]
  have hzero : widenFactor h 0 = 0 := by
    rw [widenFactor_base h 0 hh (by linarith)]
    have h1 : (0 - 20 / 100 * h) / (20 / 100 * h) = -1 := by
      field_simp
      ring
    rw [h1]; norm_num
  have hle : ∀ x : ℝ, x < 20 / 100 * h → widenFactor h x ≤ 12 / 10 := by
    intro x hx
    rw [widenFactor_base h x hh hx]
    have h1 : (x - 20 / 100 * h) / (20 / 100 * h) ≤ 0 :=
      div_nonpos_of_nonpos_of_nonneg (by linarith) (by linarith)
    have h2 := cube_le_cube h1
    have h3 : (0 : ℝ) ^ 3 = 0 := by norm_num
    rw [h3] at h2
    linarith
  have hmono : ∀ x y : ℝ, x ≤ y → y ≤ 20 / 100 * h → widenFactor h x ≤ widenFactor h y := by
    intro x y hxy hy
    rcases lt_or_eq_of_le hy with hy1 | hy1
    · have hx1 : x < 20 / 100 * h := by linarith
      rw [widenFactor_base h x hh hx1, widenFactor_base h y hh hy1]
      have h1 : (x - 20 / 100 * h) / (20 / 100 * h) ≤ (y - 20 / 100 * h) / (20 / 100 * h) :=
        div_le_div_of_nonneg_right (by linarith) (by linarith)
      have h2 := cube_le_cube h1
      linarith
    · rw [hy1, hplateau]
      rcases lt_or_eq_of_le (le_trans hxy hy) with hx1 | hx1
      · exact hle x hx1
      · rw [hx1, hplateau]
  refine ⟨fun x y _ hxy hy => hmono x y hxy hy, hzero, hplateau, ?_⟩
  intro x hx0 hx1
  constructor
  · rw [← hzero]; exact hmono 0 x hx0 hx1
  · rw [← hplateau]; exact hmono x _ hx1 (le_refl _)

/-- C13 at cap height `7`: the factor at `x = 0.7` is at most the factor at
`x = 1.4 = d h`. -/
theorem C13_base_ramp_witness : widenFactor (7 : ℝ) (7 / 10) ≤ widenFactor (7 : ℝ) (14 / 10) :=
  (C13_base_ramp 7 (by norm_num)).1 (7 / 10) (14 / 10) (by norm_num) (by norm_num)
    (by norm_num)

/-! ## Identifiers within sixteen bits -/

/-- When `n * k ≤ 65535` every vertex of the lattice has its index as
identifier, and `id / n` is its layer. -/
theorem lattice_id_of_fit {α : Type} [LinearOrderedField α] (M : CMath α) (p : Parameters α)
    (hn3 : 3 ≤ p.capNumberOfVerticalDivisions) (hn : p.capNumberOfVerticalDivisions < 65536)
    (hfit : p.capNumberOfVerticalDivisions * p.capNumberOfHorizontalDivisions ≤ 65535)
    (m : Nat) (v : MeshVertex α) (hv : (generateBaseEllipsoid M p)[m]? = some v) :
    v.id = m ∧ Int.tdiv (v.id : Int) (p.capNumberOfVerticalDivisions : Int) = v.layer := by
  have hk : p.capNumberOfHorizontalDivisions < 65536 := by
    rcases Nat.lt_or_ge p.capNumberOfHorizontalDivisions 65536 with h | h
    · exact h
    · have := Nat.mul_le_mul hn3 h
      omega
  have hN := toGLushort_of_lt hn
  have hK := toGLushort_of_lt hk
  have hnpos : 0 < p.capNumberOfVerticalDivisions := by omega
  rcases generateBaseEllipsoid_cases M p m v hv with ⟨hm, _, _, rfl⟩ | ⟨rfl, rfl⟩
  · rw [hN, hK] at hm
    have hid : (linkVertex (toGLushort p.capNumberOfVerticalDivisions)
        (toGLushort p.capNumberOfHorizontalDivisions)
        (ringVertex M p (m / toGLushort p.capNumberOfVerticalDivisions)
          (m % toGLushort p.capNumberOfVerticalDivisions))).id = m := by
      rw [linkVertex_id, ringVertex_id, hN, Nat.div_add_mod', toGLushort_of_lt (by omega)]
    refine ⟨hid, ?_⟩
    rw [hid, linkVertex_layer, ← Int.ofNat_tdiv, hN]
    rfl
  · have hid : (linkVertex (toGLushort p.capNumberOfVerticalDivisions)
        (toGLushort p.capNumberOfHorizontalDivisions) (apexVertex p)).id =
        toGLushort p.capNumberOfVerticalDivisions *
          toGLushort p.capNumberOfHorizontalDivisions := by
      rw [linkVertex_id]
      show toGLushort (toGLushort p.capNumberOfVerticalDivisions *
        toGLushort p.capNumberOfHorizontalDivisions) = _
      rw [hN, hK, toGLushort_of_lt (by omega)]
    refine ⟨hid, ?_⟩
    rw [hid, linkVertex_layer, hN, hK, ← Int.ofNat_tdiv, Nat.mul_div_cancel_left _ hnpos]
    show _ = ((toGLushort p.capNumberOfHorizontalDivisions : Nat) : Int)
    rw [hK]

/-! ## C19: identifiers and indices -/

/-- C19. Identifiers are stored modulo `2^16`; for a valid shape with
`n * k ≤ 65535` the vertex at index `m` of the lattice has identifier `m`, so
identifiers are pairwise distinct and the apex has identifier `n * k`, and
`id / n` is the layer of every vertex, which is how the linking loop and the
widening pass recover the ring. -/
theorem C19_id_is_index {α : Type} [LinearOrderedField α] (M : CMath α) (p : Parameters α)
    (hn3 : 3 ≤ p.capNumberOfVerticalDivisions) (hn : p.capNumberOfVerticalDivisions < 65536)
    (_hk1 : 1 ≤ p.capNumberOfHorizontalDivisions)
    (hfit : p.capNumberOfVerticalDivisions * p.capNumberOfHorizontalDivisions ≤ 65535) :
    (∀ (m : Nat) (v : MeshVertex α), (generateBaseEllipsoid M p)[m]? = some v →
      v.id = m ∧ v.id < 65536 ∧
      Int.tdiv (v.id : Int) (p.capNumberOfVerticalDivisions : Int) = v.layer) ∧
    (∀ (m1 m2 : Nat) (v1 v2 : MeshVertex α), (generateBaseEllipsoid M p)[m1]? = some v1 →
      (generateBaseEllipsoid M p)[m2]? = some v2 → v1.id = v2.id → m1 = m2) ∧
    ((generateBaseEllipsoid M p)[p.capNumberOfVerticalDivisions *
        p.capNumberOfHorizontalDivisions]?).map (fun v => v.id) =
      some (p.capNumberOfVerticalDivisions * p.capNumberOfHorizontalDivisions) := by
  have hk : p.capNumberOfHorizontalDivisions < 65536 := by
    rcases Nat.lt_or_ge p.capNumberOfHorizontalDivisions 65536 with h | h
    · exact h
    · have := Nat.mul_le_mul hn3 h
      omega
  have hid := lattice_id_of_fit M p hn3 hn hfit
  have hlen := generateBaseEllipsoid_length_aux M p
  rw [toGLushort_of_lt hn, toGLushort_of_lt hk] at hlen
  refine ⟨?_, ?_, ?_⟩
  · intro m v hv
    have hm := (List.getElem?_eq_some_iff.mp hv).1
    rw [hlen] at hm
    exact ⟨(hid m v hv).1, by rw [(hid m v hv).1]; omega, (hid m v hv).2⟩
  · intro m1 m2 v1 v2 h1 h2 h
    rw [(hid m1 v1 h1).1, (hid m2 v2 h2).1] at h
    exact h
  · have hapex := generateBaseEllipsoid_apex M p
    rw [toGLushort_of_lt hn, toGLushort_of_lt hk] at hapex
    rw [hapex, Option.map_some', (hid _ _ hapex).1]

/-- C19 at the scenario shape: the apex, at index `32`, has identifier `32`. -/
theorem C19_id_is_index_witness :
    ((generateBaseEllipsoid realCMath (scenarioShape ℝ))[8 * 4]?).map (fun v => v.id) =
      some (8 * 4) :=
  (C19_id_is_index realCMath (scenarioShape ℝ) (by decide) (by decide) (by decide)
    (by decide)).2.2

/-! ## C14: which vertices the widening pass rescales -/

/-- C14, restricted to sixteen-bit identifiers. For a valid shape with
`n * k ≤ 65535`, for every vertex `v` of the lattice, at index `m`: the selector
`id / n` of `widenCapRealisticaly` equals the layer of `v` (apex included), so it
is non-zero exactly when the layer is; when the layer is non-zero the pass
replaces the position by `((1 + factor) x, (1 + factor) y, z)` with `factor` the
widening factor at height `z`, and changes nothing else; when the layer is zero
the vertex is unchanged. -/
theorem C14_widen_selects_layers {α : Type} [LinearOrderedField α] (M : CMath α)
    (p : Parameters α)
    (hn3 : 3 ≤ p.capNumberOfVerticalDivisions) (hn : p.capNumberOfVerticalDivisions < 65536)
    (_hk1 : 1 ≤ p.capNumberOfHorizontalDivisions)
    (hfit : p.capNumberOfVerticalDivisions * p.capNumberOfHorizontalDivisions ≤ 65535)
    (m : Nat) (v : MeshVertex α) (hv : (generateBaseEllipsoid M p)[m]? = some v) :
    Int.tdiv (v.id : Int) (p.capNumberOfVerticalDivisions : Int) = v.layer ∧
    (Int.tdiv (v.id : Int) (p.capNumberOfVerticalDivisions : Int) ≠ 0 ↔ v.layer ≠ 0) ∧
    (v.layer ≠ 0 →
      (widenCapRealisticaly p (generateBaseEllipsoid M p))[m]? =
        some { v with position :=
          ⟨(1 + widenFactor (p.height * (1 - p.stemHeightPart)) v.position.z) * v.position.x,
            (1 + widenFactor (p.height * (1 - p.stemHeightPart)) v.position.z) * v.position.y,
            v.position.z⟩ }) ∧
    (v.layer = 0 → (widenCapRealisticaly p (generateBaseEllipsoid M p))[m]? = some v) := by
  have hN := toGLushort_of_lt hn
  have hsel := (lattice_id_of_fit M p hn3 hn hfit m v hv).2
  refine ⟨hsel, by rw [hsel], ?_, ?_⟩
  · intro hl
    have hne : Int.tdiv (v.id : Int) (p.capNumberOfVerticalDivisions : Int) ≠ 0 := by
      rw [hsel]; exact hl
    simp only [widenCapRealisticaly, List.getElem?_map, hv, Option.map_some', hN]
    unfold widenVertex
    simp only []
    rw [if_pos hne]
    congr 3 <;> ring
  · intro hl
    have heq : Int.tdiv (v.id : Int) (p.capNumberOfVerticalDivisions : Int) = 0 := by
      rw [hsel]; exact hl
    simp only [widenCapRealisticaly, List.getElem?_map, hv, Option.map_some', hN]
    unfold widenVertex
    simp only [heq, ne_eq, not_true_eq_false, if_false]

/-- C14 at the scenario shape: for vertex `5` of ring `2` (index `2 * 8 + 5`) the
selector `id / n` is the layer. -/
theorem C14_widen_selects_layers_witness :
    Int.tdiv ((linkVertex 8 4 (ringVertex realCMath (scenarioShape ℝ) 2 5)).id : Int)
        ((8 : Nat) : Int) =
      (linkVertex 8 4 (ringVertex realCMath (scenarioShape ℝ) 2 5)).layer :=
  (C14_widen_selects_layers realCMath (scenarioShape ℝ) (by decide) (by decide) (by decide)
    (by decide) (2 * 8 + 5) (linkVertex 8 4 (ringVertex realCMath (scenarioShape ℝ) 2 5))
    (generateBaseEllipsoid_ring realCMath (scenarioShape ℝ) 2 5 (by decide) (by decide))).1

/-- C14 fails as stated once an identifier wraps. At `n = 256`, `k = 256` the
apex (index `65536`, layer `256`) has identifier `0`, so its selector `id / n` is
`0`. At `n = 3`, `k = 21846` the ring vertex at index `65536` (layer `21845`)
has identifier `0` and selector `0`, and the widening pass leaves it unchanged. -/
theorem C14_counterexample :
    (∃ v : MeshVertex ℝ,
      (generateBaseEllipsoid realCMath (squareShape ℝ))[256 * 256]? = some v ∧
      v.layer = 256 ∧ Int.tdiv (v.id : Int) ((256 : Nat) : Int) = 0) ∧
    (∃ v : MeshVertex ℝ,
      (generateBaseEllipsoid realCMath (largeShape ℝ))[21845 * 3 + 1]? = some v ∧
      v.layer = 21845 ∧ Int.tdiv (v.id : Int) ((3 : Nat) : Int) = 0 ∧
      (widenCapRealisticaly (largeShape ℝ)
        (generateBaseEllipsoid realCMath (largeShape ℝ)))[21845 * 3 + 1]? = some v) := by
  constructor
  · have hapex := generateBaseEllipsoid_apex realCMath (squareShape ℝ)
    have hn : toGLushort (squareShape ℝ).capNumberOfVerticalDivisions = 256 := by decide
    have hk : toGLushort (squareShape ℝ).capNumberOfHorizontalDivisions = 256 := by decide
    rw [hn, hk] at hapex
    have hid : (linkVertex 256 256 (apexVertex (squareShape ℝ))).id = 0 := by
      rw [linkVertex_id]
      show toGLushort (toGLushort (squareShape ℝ).capNumberOfVerticalDivisions *
        toGLushort (squareShape ℝ).capNumberOfHorizontalDivisions) = 0
      rw [hn, hk]; decide
    refine ⟨_, hapex, ?_, ?_⟩
    · rw [linkVertex_layer]
      show ((toGLushort (squareShape ℝ).capNumberOfHorizontalDivisions : Nat) : Int) = 256
      rw [hk]; rfl
    · rw [hid]; decide
  · have hring := generateBaseEllipsoid_ring realCMath (largeShape ℝ) 21845 1 (by decide)
      (by decide)
    have hn : toGLushort (largeShape ℝ).capNumberOfVerticalDivisions = 3 := by decide
    have hk : toGLushort (largeShape ℝ).capNumberOfHorizontalDivisions = 21846 := by decide
    rw [hn, hk] at hring
    have hid : (linkVertex 3 21846 (ringVertex realCMath (largeShape ℝ) 21845 1)).id = 0 := by
      rw [linkVertex_id, ringVertex_id, hn]; decide
    refine ⟨_, hring, ?_, ?_, ?_⟩
    · rw [linkVertex_layer]; rfl
    · rw [hid]; decide
    · simp only [widenCapRealisticaly, List.getElem?_map, hring, Option.map_some', hn]
      rw [widenVertex_of_id_lt 3 _ _ (by rw [hid]; decide)]

/-! ## C15: the normalized height -/

/-- The coordinate `sZ` of a vertex of the lattice is `2 layer / k - 1`, and its
layer lies between `0` and `k`. -/
theorem sphereZ_lattice {α : Type} [LinearOrderedField α] (M : CMath α) (p : Parameters α)
    (hk1 : 1 ≤ p.capNumberOfHorizontalDivisions)
    (hk : p.capNumberOfHorizontalDivisions < 65536)
    (hh : 0 < p.height) (hs1 : p.stemHeightPart < 1)
    (m : Nat) (v : MeshVertex α) (hv : (generateBaseEllipsoid M p)[m]? = some v) :
    sphereZ (p.height * (1 - p.stemHeightPart)) v =
      2 * ((v.layer : Int) : α) / (p.capNumberOfHorizontalDivisions : α) - 1 ∧
    0 ≤ v.layer ∧ v.layer ≤ (p.capNumberOfHorizontalDivisions : Int) := by
  have hK := toGLushort_of_lt hk
  have hpos : 0 < p.height * (1 - p.stemHeightPart) := mul_pos hh (by linarith)
  have hkpos : (0 : α) < (p.capNumberOfHorizontalDivisions : α) := by
    exact_mod_cast hk1
  rcases generateBaseEllipsoid_cases M p m v hv with ⟨_, hi, _, rfl⟩ | ⟨_, rfl⟩
  · rw [hK] at hi
    refine ⟨?_, ?_, ?_⟩
    · simp only [sphereZ, linkVertex_baseHeight, linkVertex_layer, ringVertex, hK, Int.cast_natCast]
      field_simp
      ring
    · rw [linkVertex_layer]
      exact Int.ofNat_nonneg _
    · simp only [linkVertex_layer, ringVertex]
      exact_mod_cast hi.le
  · refine ⟨?_, ?_, ?_⟩
    · simp only [sphereZ, linkVertex_baseHeight, linkVertex_layer, apexVertex, hK,
        Int.cast_natCast]
      field_simp
      ring
    · rw [linkVertex_layer]
      exact Int.ofNat_nonneg _
    · simp [apexVertex, hK]

/-- The coordinate `sZ` of a vertex of the lattice lies in `[-1, 1]`. -/
theorem sphereZ_lattice_range {α : Type} [LinearOrderedField α] (M : CMath α) (p : Parameters α)
    (hk1 : 1 ≤ p.capNumberOfHorizontalDivisions)
    (hk : p.capNumberOfHorizontalDivisions < 65536)
    (hh : 0 < p.height) (hs1 : p.stemHeightPart < 1)
    (m : Nat) (v : MeshVertex α) (hv : (generateBaseEllipsoid M p)[m]? = some v) :
    sphereZ (p.height * (1 - p.stemHeightPart)) v =
      2 * ((v.layer : Int) : α) / (p.capNumberOfHorizontalDivisions : α) - 1 ∧
    -1 ≤ sphereZ (p.height * (1 - p.stemHeightPart)) v ∧
    sphereZ (p.height * (1 - p.stemHeightPart)) v ≤ 1 ∧
    0 ≤ 1 - sphereZ (p.height * (1 - p.stemHeightPart)) v ^ 2 := by
  obtain ⟨hz, hl0, hlk⟩ := sphereZ_lattice M p hk1 hk hh hs1 m v hv
  have hkpos : (0 : α) < (p.capNumberOfHorizontalDivisions : α) := by
    exact_mod_cast hk1
  have h0 : (0 : α) ≤ ((v.layer : Int) : α) := by exact_mod_cast hl0
  have h1 : ((v.layer : Int) : α) ≤ (p.capNumberOfHorizontalDivisions : α) := by
    exact_mod_cast hlk
  have hq0 : 0 ≤ ((v.layer : Int) : α) / (p.capNumberOfHorizontalDivisions : α) :=
    div_nonneg h0 hkpos.le
  have hq1 : ((v.layer : Int) : α) / (p.capNumberOfHorizontalDivisions : α) ≤ 1 :=
    (div_le_one hkpos).mpr h1
  have hlow : -1 ≤ sphereZ (p.height * (1 - p.stemHeightPart)) v := by
    rw [hz, mul_div_assoc]; linarith
  have hhigh : sphereZ (p.height * (1 - p.stemHeightPart)) v ≤ 1 := by
    rw [hz, mul_div_assoc]; linarith
  refine ⟨hz, hlow, hhigh, ?_⟩
  nlinarith

/-- C15. For a valid shape, every vertex of the lattice built by
`generateBaseEllipsoid` has `sZ = 2 (baseHeight - h/2) / h` equal to
`2 layer / k - 1` and between `-1` and `1`, so `1 - sZ² ≥ 0`: the arguments of
`sqrt` and of `acos` in `applyPerlin` are in their domains.  The widening pass,
which runs before `applyPerlin`, does not change `sZ`. -/
theorem C15_sphereZ_range {α : Type} [LinearOrderedField α] (M : CMath α) (p : Parameters α)
    (hk1 : 1 ≤ p.capNumberOfHorizontalDivisions)
    (hk : p.capNumberOfHorizontalDivisions < 65536)
    (hh : 0 < p.height) (_hs0 : 0 < p.stemHeightPart) (hs1 : p.stemHeightPart < 1)
    (m : Nat) (v : MeshVertex α) (hv : (generateBaseEllipsoid M p)[m]? = some v) :
    sphereZ (p.height * (1 - p.stemHeightPart)) v =
      2 * ((v.layer : Int) : α) / (p.capNumberOfHorizontalDivisions : α) - 1 ∧
    -1 ≤ sphereZ (p.height * (1 - p.stemHeightPart)) v ∧
    sphereZ (p.height * (1 - p.stemHeightPart)) v ≤ 1 ∧
    0 ≤ 1 - sphereZ (p.height * (1 - p.stemHeightPart)) v ^ 2 ∧
    sphereZ (p.height * (1 - p.stemHeightPart))
        (widenVertex (toGLushort p.capNumberOfVerticalDivisions)
          (p.height * (1 - p.stemHeightPart)) v) =
      sphereZ (p.height * (1 - p.stemHeightPart)) v := by
  obtain ⟨hz, hl0, hlk⟩ := sphereZ_lattice M p hk1 hk hh hs1 m v hv
  have hkpos : (0 : α) < (p.capNumberOfHorizontalDivisions : α) := by
    exact_mod_cast hk1
  have h0 : (0 : α) ≤ ((v.layer : Int) : α) := by exact_mod_cast hl0
  have h1 : ((v.layer : Int) : α) ≤ (p.capNumberOfHorizontalDivisions : α) := by
    exact_mod_cast hlk
  have hq0 : 0 ≤ ((v.layer : Int) : α) / (p.capNumberOfHorizontalDivisions : α) :=
    div_nonneg h0 hkpos.le
  have hq1 : ((v.layer : Int) : α) / (p.capNumberOfHorizontalDivisions : α) ≤ 1 :=
    (div_le_one hkpos).mpr h1
  have hlow : -1 ≤ sphereZ (p.height * (1 - p.stemHeightPart)) v := by
    rw [hz, mul_div_assoc]; linarith
  have hhigh : sphereZ (p.height * (1 - p.stemHeightPart)) v ≤ 1 := by
    rw [hz, mul_div_assoc]; linarith
  refine ⟨hz, hlow, hhigh, by nlinarith, ?_⟩
  simp only [sphereZ, (widenVertex_frame _ _ v).2.1]

/-- C15 at the scenario shape: for vertex `0` of ring `2`, `sZ` is at most `1`. -/
theorem C15_sphereZ_range_witness :
    sphereZ ((scenarioShape ℝ).height * (1 - (scenarioShape ℝ).stemHeightPart))
      (linkVertex 8 4 (ringVertex realCMath (scenarioShape ℝ) 2 0)) ≤ 1 :=
  (C15_sphereZ_range realCMath (scenarioShape ℝ) (by decide) (by decide)
    (by norm_num [scenarioShape]) (by norm_num [scenarioShape]) (by norm_num [scenarioShape])
    (2 * 8 + 0) (linkVertex 8 4 (ringVertex realCMath (scenarioShape ℝ) 2 0))
    (generateBaseEllipsoid_ring realCMath (scenarioShape ℝ) 2 0 (by decide) (by decide))).2.2.1

@[simp] theorem realCMath_atan2 (y x : ℝ) : realCMath.atan2 y x = Complex.arg ⟨x, y⟩ := rfl

/-! ## C16: the coordinates passed to the tessellation field -/

/-- The tessellation pass reads the field at `(voronoiU, voronoiV)`. -/
theorem voronoiVertex_eq {α : Type} [LinearOrderedField α] (M : CMath α)
    (getFactorAt : α → α → α) (h : α) (v : MeshVertex α) (hl : v.layer ≠ 0) :
    voronoiVertex M getFactorAt h v =
      applyRadius M h (1 * getFactorAt (voronoiU M h v) (voronoiV M h v))
        (if |getFactorAt (voronoiU M h v) (voronoiV M h v) - 11 / 10| ≤ 1 / 100
          then { v with color := ⟨225 / 255, 188 / 255, 144 / 255⟩ } else v) := by
  unfold voronoiVertex voronoiU voronoiV
  simp only [hl, ne_eq, not_false_eq_true, if_true]

/-- C16. Over the reals, in `applyVoronoiTesselation`, for every vertex `v` of the
lattice with `layer ≠ 0`: the field is read at
`((theta + π)/(2π), (phi + π)/(2π))` with `theta = atan2(sY, sX)` and
`phi = acos(sZ)`, `sZ` is in the domain `[-1, 1]` of `acos`, and both
coordinates lie in `[0, 1]`. -/
theorem C16_voronoi_coordinates (p : Parameters ℝ)
    (hk1 : 1 ≤ p.capNumberOfHorizontalDivisions)
    (hk : p.capNumberOfHorizontalDivisions < 65536)
    (hh : 0 < p.height) (_hs0 : 0 < p.stemHeightPart) (hs1 : p.stemHeightPart < 1)
    (getFactorAt : ℝ → ℝ → ℝ)
    (m : Nat) (v : MeshVertex ℝ) (hv : (generateBaseEllipsoid realCMath p)[m]? = some v)
    (hl : v.layer ≠ 0) :
    voronoiVertex realCMath getFactorAt (p.height * (1 - p.stemHeightPart)) v =
      applyRadius realCMath (p.height * (1 - p.stemHeightPart))
        (1 * getFactorAt (voronoiU realCMath (p.height * (1 - p.stemHeightPart)) v)
          (voronoiV realCMath (p.height * (1 - p.stemHeightPart)) v))
        (if |getFactorAt (voronoiU realCMath (p.height * (1 - p.stemHeightPart)) v)
            (voronoiV realCMath (p.height * (1 - p.stemHeightPart)) v) - 11 / 10| ≤ 1 / 100
          then { v with color := ⟨225 / 255, 188 / 255, 144 / 255⟩ } else v) ∧
    voronoiU realCMath (p.height * (1 - p.stemHeightPart)) v =
      (Complex.arg ⟨sphereX realCMath (p.height * (1 - p.stemHeightPart)) v,
        sphereY realCMath (p.height * (1 - p.stemHeightPart)) v⟩ + Real.pi) / (2 * Real.pi) ∧
    voronoiV realCMath (p.height * (1 - p.stemHeightPart)) v =
      (Real.arccos (sphereZ (p.height * (1 - p.stemHeightPart)) v) + Real.pi) / (2 * Real.pi) ∧
    (-1 ≤ sphereZ (p.height * (1 - p.stemHeightPart)) v ∧
      sphereZ (p.height * (1 - p.stemHeightPart)) v ≤ 1) ∧
    (0 ≤ voronoiU realCMath (p.height * (1 - p.stemHeightPart)) v ∧
      voronoiU realCMath (p.height * (1 - p.stemHeightPart)) v ≤ 1) ∧
    (0 ≤ voronoiV realCMath (p.height * (1 - p.stemHeightPart)) v ∧
      voronoiV realCMath (p.height * (1 - p.stemHeightPart)) v ≤ 1) := by
  have hrange := sphereZ_lattice_range realCMath p hk1 hk hh hs1 m v hv
  have hpi := Real.pi_pos
  have h2pi : 0 < 2 * Real.pi := by linarith
  refine ⟨voronoiVertex_eq realCMath getFactorAt _ v hl, rfl, rfl,
    ⟨hrange.2.1, hrange.2.2.1⟩, ?_, ?_⟩
  · simp only [voronoiU, realCMath_atan2, realCMath_pi]
    have h1 := Complex.neg_pi_lt_arg
      (⟨sphereX realCMath (p.height * (1 - p.stemHeightPart)) v,
        sphereY realCMath (p.height * (1 - p.stemHeightPart)) v⟩ : ℂ)
    have h2 := Complex.arg_le_pi
      (⟨sphereX realCMath (p.height * (1 - p.stemHeightPart)) v,
        sphereY realCMath (p.height * (1 - p.stemHeightPart)) v⟩ : ℂ)
    constructor
    · exact div_nonneg (by linarith) h2pi.le
    · rw [div_le_one h2pi]; linarith
  · simp only [voronoiV, realCMath_acos, realCMath_pi]
    have h1 := Real.arccos_nonneg (sphereZ (p.height * (1 - p.stemHeightPart)) v)
    have h2 := Real.arccos_le_pi (sphereZ (p.height * (1 - p.stemHeightPart)) v)
    constructor
    · exact div_nonneg (by linarith) h2pi.le
    · rw [div_le_one h2pi]; linarith

/-- C16 at the scenario shape: for vertex `0` of ring `2` the first coordinate
passed to the field is at most `1`. -/
theorem C16_voronoi_coordinates_witness :
    voronoiU realCMath ((scenarioShape ℝ).height * (1 - (scenarioShape ℝ).stemHeightPart))
      (linkVertex 8 4 (ringVertex realCMath (scenarioShape ℝ) 2 0)) ≤ 1 :=
  (C16_voronoi_coordinates (scenarioShape ℝ) (by decide) (by decide)
    (by norm_num [scenarioShape]) (by norm_num [scenarioShape]) (by norm_num [scenarioShape])
    (fun _ _ => 1) (2 * 8 + 0) (linkVertex 8 4 (ringVertex realCMath (scenarioShape ℝ) 2 0))
    (generateBaseEllipsoid_ring realCMath (scenarioShape ℝ) 2 0 (by decide) (by decide))
    (by rw [linkVertex_layer]; show ((2 : Nat) : Int) ≠ 0; decide)).2.2.2.2.1.2

/-! ## C17: the spherical round trip is a uniform horizontal scale -/

/-- With `sR = sqrt (1 - sZ²) > 0`, the back-projection of radius `r` along
`theta = atan2(sY, sX)`, `phi = acos(sZ)` is `(r sX, r sY)`. -/
theorem back_projection (h r : ℝ) (v : MeshVertex ℝ)
    (hR : 0 < Real.sqrt (1 - sphereZ h v ^ 2)) :
    r * Real.cos (Complex.arg ⟨sphereX realCMath h v, sphereY realCMath h v⟩) *
        Real.sin (Real.arccos (sphereZ h v)) = r * sphereX realCMath h v ∧
    r * Real.sin (Complex.arg ⟨sphereX realCMath h v, sphereY realCMath h v⟩) *
        Real.sin (Real.arccos (sphereZ h v)) = r * sphereY realCMath h v := by
  have habs : Complex.abs ⟨sphereX realCMath h v, sphereY realCMath h v⟩ =
      Real.sqrt (1 - sphereZ h v ^ 2) := by
    rw [Complex.abs_apply, Complex.normSq_mk]
    have h1 : sphereX realCMath h v * sphereX realCMath h v +
        sphereY realCMath h v * sphereY realCMath h v =
        Real.sqrt (1 - sphereZ h v ^ 2) ^ 2 := by
      simp only [sphereX, sphereY, realCMath_sqrt, realCMath_cos, realCMath_sin]
      have := Real.cos_sq_add_sin_sq v.baseAngle
      linear_combination (Real.sqrt (1 - sphereZ h v ^ 2) ^ 2) * this
    rw [h1, Real.sqrt_sq hR.le]
  have hne : (⟨sphereX realCMath h v, sphereY realCMath h v⟩ : ℂ) ≠ 0 := by
    intro h0
    rw [h0, map_zero] at habs
    linarith
  have hRne : Real.sqrt (1 - sphereZ h v ^ 2) ≠ 0 := ne_of_gt hR
  rw [Complex.cos_arg hne, Complex.sin_arg, Real.sin_arccos, habs]
  constructor
  · field_simp
  · field_simp

/-- C17. Over the reals, in `applyPerlin`, for a vertex `v` of the collection with
`layer ≠ 0` and `sR = sqrt (1 - sZ²) > 0`, with `theta = atan2(sY, sX)`,
`phi = acos(sZ)` and `noise` the provider's value at `(theta, phi)`: the
back-projected point is `x' = (1 + noise) sX`, `y' = (1 + noise) sY`; hence when
`|sX| > 0.01` the pass multiplies the x-coordinate by exactly `1 + noise`, and
when `|sY| > 0.01` it multiplies the y-coordinate by exactly `1 + noise`. -/
theorem C17_uniform_scale (noise : ℝ → ℝ → Int → ℝ) (octaves : Int) (p : Parameters ℝ)
    (vs : List (MeshVertex ℝ)) (m : Nat) (v : MeshVertex ℝ) (hv : vs[m]? = some v)
    (hl : v.layer ≠ 0)
    (hR : 0 < Real.sqrt (1 - sphereZ (p.height * (1 - p.stemHeightPart)) v ^ 2)) :
    let h : ℝ := p.height * (1 - p.stemHeightPart)
    let theta : ℝ := realCMath.atan2 (sphereY realCMath h v) (sphereX realCMath h v)
    let phi : ℝ := realCMath.acos (sphereZ h v)
    let nz : ℝ := noise theta phi octaves
    (1 + 1 * nz) * Real.cos theta * Real.sin phi = (1 + nz) * sphereX realCMath h v ∧
    (1 + 1 * nz) * Real.sin theta * Real.sin phi = (1 + nz) * sphereY realCMath h v ∧
    (1 / 100 < |sphereX realCMath h v| →
      ((applyPerlin realCMath noise p octaves vs)[m]?).map (fun w => w.position.x) =
        some (v.position.x * (1 + nz))) ∧
    (1 / 100 < |sphereY realCMath h v| →
      ((applyPerlin realCMath noise p octaves vs)[m]?).map (fun w => w.position.y) =
        some (v.position.y * (1 + nz))) := by
  intro h theta phi nz
  have hbp := back_projection h (1 + 1 * nz) v hR
  have hone : (1 : ℝ) + 1 * nz = 1 + nz := by ring
  refine ⟨?_, ?_, ?_, ?_⟩
  · rw [← hone]; exact hbp.1
  · rw [← hone]; exact hbp.2
  · intro hx
    have hx0 : sphereX realCMath h v ≠ 0 := by
      intro h0
      rw [h0, abs_zero] at hx
      linarith
    simp only [applyPerlin, List.getElem?_map, hv, Option.map_some']
    unfold perlinVertex
    rw [if_pos hl]
    simp only [applyRadius, if_neg (not_le.mpr hx), realCMath_cos, realCMath_sin]
    congr 2
    rw [div_eq_iff hx0, ← hone]
    exact hbp.1
  · intro hy
    have hy0 : sphereY realCMath h v ≠ 0 := by
      intro h0
      rw [h0, abs_zero] at hy
      linarith
    simp only [applyPerlin, List.getElem?_map, hv, Option.map_some']
    unfold perlinVertex
    rw [if_pos hl]
    simp only [applyRadius, if_neg (not_le.mpr hy), realCMath_cos, realCMath_sin]
    congr 2
    rw [div_eq_iff hy0, ← hone]
    exact hbp.2

theorem scenario_ring2_sphere :
    sphereZ ((scenarioShape ℝ).height * (1 - (scenarioShape ℝ).stemHeightPart))
      (ringVertex realCMath (scenarioShape ℝ) 2 0) = 0 ∧
    sphereX realCMath ((scenarioShape ℝ).height * (1 - (scenarioShape ℝ).stemHeightPart))
      (ringVertex realCMath (scenarioShape ℝ) 2 0) = 1 := by
  have hk : toGLushort (scenarioShape ℝ).capNumberOfHorizontalDivisions = 4 := by decide
  have hz : sphereZ ((scenarioShape ℝ).height * (1 - (scenarioShape ℝ).stemHeightPart))
      (ringVertex realCMath (scenarioShape ℝ) 2 0) = 0 := by
    simp only [sphereZ, ringVertex, hk]
    norm_num [scenarioShape]
  refine ⟨hz, ?_⟩
  simp only [sphereX, hz, realCMath_sqrt, realCMath_cos]
  simp [ringVertex]

/-- C17 at vertex `0` of ring `2` of the scenario shape (`sZ = 0`, `sX = 1`): a
noise of `1/2` multiplies its x-coordinate by `1 + 1/2`. -/
theorem C17_uniform_scale_witness :
    ((applyPerlin realCMath (fun _ _ _ => 1 / 2) (scenarioShape ℝ) 18
        [ringVertex realCMath (scenarioShape ℝ) 2 0])[0]?).map (fun w => w.position.x) =
      some ((ringVertex realCMath (scenarioShape ℝ) 2 0).position.x * (1 + 1 / 2)) :=
  (C17_uniform_scale (fun _ _ _ => 1 / 2) 18 (scenarioShape ℝ)
    [ringVertex realCMath (scenarioShape ℝ) 2 0] 0 (ringVertex realCMath (scenarioShape ℝ) 2 0)
    rfl (by show ((2 : Nat) : Int) ≠ 0; decide)
    (by rw [scenario_ring2_sphere.1]; norm_num)).2.2.1
    (by rw [scenario_ring2_sphere.2]; norm_num)

/-! ## C18: the ring radius -/

/-- C18. Over the reals, for a valid shape (`k ≥ 1`, `height > 0`,
`0 < stemHeightPart < 1`, `capMaxRadius ≥ junctionRadius ≥ 0`) and every ring
`i < k`: the argument of `sqrt` in the radius formula of `generateBaseEllipsoid`
is non-negative, and the ring radius `R` satisfies
`junctionRadius (1 - i/k) ≤ R ≤ capMaxRadius`. -/
theorem C18_ring_radius_bounds (p : Parameters ℝ)
    (hk1 : 1 ≤ p.capNumberOfHorizontalDivisions)
    (hk : p.capNumberOfHorizontalDivisions < 65536)
    (hh : 0 < p.height) (_hs0 : 0 < p.stemHeightPart) (hs1 : p.stemHeightPart < 1)
    (hr0 : 0 ≤ p.junctionRadius) (hrad : p.junctionRadius ≤ p.capMaxRadius)
    (i : Nat) (hi : i < p.capNumberOfHorizontalDivisions) :
    newRadius realCMath p i =
      (if ((i : ℝ) / (p.capNumberOfHorizontalDivisions : ℝ)) *
          (p.height * (1 - p.stemHeightPart)) ≤ 0 then p.junctionRadius
        else Real.sqrt (newRadiusRadicand p i) + p.junctionRadius -
          (p.junctionRadius / (p.height * (1 - p.stemHeightPart))) *
            (((i : ℝ) / (p.capNumberOfHorizontalDivisions : ℝ)) *
              (p.height * (1 - p.stemHeightPart)))) ∧
    0 ≤ newRadiusRadicand p i ∧
    p.junctionRadius * (1 - (i : ℝ) / (p.capNumberOfHorizontalDivisions : ℝ)) ≤
      newRadius realCMath p i ∧
    newRadius realCMath p i ≤ p.capMaxRadius := by
  have hK := toGLushort_of_lt hk
  have hpos : 0 < p.height * (1 - p.stemHeightPart) := mul_pos hh (by linarith)
  have hkpos : (0 : ℝ) < (p.capNumberOfHorizontalDivisions : ℝ) := by exact_mod_cast hk1
  have ht0 : 0 ≤ (i : ℝ) / (p.capNumberOfHorizontalDivisions : ℝ) :=
    div_nonneg (Nat.cast_nonneg i) hkpos.le
  have ht1 : (i : ℝ) / (p.capNumberOfHorizontalDivisions : ℝ) ≤ 1 := by
    rw [div_le_one hkpos]; exact_mod_cast hi.le
  have hbridge : newRadius realCMath p i =
      (if ((i : ℝ) / (p.capNumberOfHorizontalDivisions : ℝ)) *
          (p.height * (1 - p.stemHeightPart)) ≤ 0 then p.junctionRadius
        else Real.sqrt (newRadiusRadicand p i) + p.junctionRadius -
          (p.junctionRadius / (p.height * (1 - p.stemHeightPart))) *
            (((i : ℝ) / (p.capNumberOfHorizontalDivisions : ℝ)) *
              (p.height * (1 - p.stemHeightPart)))) := by
    simp only [newRadius, newRadiusRadicand, hK, mul_one, realCMath_sqrt]
  have hsq : ((i : ℝ) / (p.capNumberOfHorizontalDivisions : ℝ) *
        (p.height * (1 - p.stemHeightPart)) - p.height * (1 - p.stemHeightPart) / 2) ^ 2 /
      (p.height * (1 - p.stemHeightPart) / 2) ^ 2 =
      (2 * ((i : ℝ) / (p.capNumberOfHorizontalDivisions : ℝ)) - 1) ^ 2 := by
    field_simp
    ring
  have hradicand : newRadiusRadicand p i =
      (p.capMaxRadius - p.junctionRadius) ^ 2 *
        (1 - (2 * ((i : ℝ) / (p.capNumberOfHorizontalDivisions : ℝ)) - 1) ^ 2) := by
    simp only [newRadiusRadicand, hK, mul_one]
    rw [hsq]
  have hone : 0 ≤ 1 - (2 * ((i : ℝ) / (p.capNumberOfHorizontalDivisions : ℝ)) - 1) ^ 2 := by
    nlinarith
  have hrad0 : 0 ≤ newRadiusRadicand p i := by
    rw [hradicand]; exact mul_nonneg (sq_nonneg _) hone
  have hradle : newRadiusRadicand p i ≤ (p.capMaxRadius - p.junctionRadius) ^ 2 := by
    rw [hradicand]
    have := sq_nonneg (p.capMaxRadius - p.junctionRadius)
    have h2 := sq_nonneg (2 * ((i : ℝ) / (p.capNumberOfHorizontalDivisions : ℝ)) - 1)
    nlinarith
  have hsqrt : Real.sqrt (newRadiusRadicand p i) ≤ p.capMaxRadius - p.junctionRadius := by
    calc Real.sqrt (newRadiusRadicand p i)
        ≤ Real.sqrt ((p.capMaxRadius - p.junctionRadius) ^ 2) := Real.sqrt_le_sqrt hradle
      _ = p.capMaxRadius - p.junctionRadius := Real.sqrt_sq (by linarith)
  have htaper : p.junctionRadius / (p.height * (1 - p.stemHeightPart)) *
      ((i : ℝ) / (p.capNumberOfHorizontalDivisions : ℝ) * (p.height * (1 - p.stemHeightPart))) =
      p.junctionRadius * ((i : ℝ) / (p.capNumberOfHorizontalDivisions : ℝ)) := by
    field_simp
    ring
  have hmul : 0 ≤ p.junctionRadius * ((i : ℝ) / (p.capNumberOfHorizontalDivisions : ℝ)) :=
    mul_nonneg hr0 ht0
  refine ⟨hbridge, hrad0, ?_, ?_⟩
  · rw [hbridge]
    split_ifs
    · nlinarith
    · rw [htaper]
      have := Real.sqrt_nonneg (newRadiusRadicand p i)
      linarith
  · rw [hbridge]
    split_ifs
    · exact hrad
    · rw [htaper]
      linarith

/-- C18 at the scenario shape: ring `2` has a radius of at most `capMaxRadius = 3`. -/
theorem C18_ring_radius_bounds_witness :
    newRadius realCMath (scenarioShape ℝ) 2 ≤ (scenarioShape ℝ).capMaxRadius :=
  (C18_ring_radius_bounds (scenarioShape ℝ) (by decide) (by decide)
    (by norm_num [scenarioShape]) (by norm_num [scenarioShape]) (by norm_num [scenarioShape])
    (by norm_num [scenarioShape]) (by norm_num [scenarioShape]) 2 (by decide)).2.2.2

/-! ## C20: the curve parameter of the bend pass -/

/-- Every vertex of the lattice is built at height `(h / k) * layer`. -/
theorem lattice_z_of_layer {α : Type} [LinearOrderedField α] (M : CMath α) (p : Parameters α)
    (hk1 : 1 ≤ p.capNumberOfHorizontalDivisions)
    (hk : p.capNumberOfHorizontalDivisions < 65536)
    (m : Nat) (v : MeshVertex α) (hv : (generateBaseEllipsoid M p)[m]? = some v) :
    v.position.z = p.height * (1 - p.stemHeightPart) / (p.capNumberOfHorizontalDivisions : α) *
      ((v.layer : Int) : α) := by
  have hK := toGLushort_of_lt hk
  have hkne : (p.capNumberOfHorizontalDivisions : α) ≠ 0 := by
    have : (0 : α) < (p.capNumberOfHorizontalDivisions : α) := by exact_mod_cast hk1
    exact ne_of_gt this
  rcases generateBaseEllipsoid_cases M p m v hv with ⟨_, _, _, rfl⟩ | ⟨_, rfl⟩
  · simp only [linkVertex_position, linkVertex_layer, ringVertex, hK, Int.cast_natCast]
  · simp only [linkVertex_position, linkVertex_layer, apexVertex, hK, Int.cast_natCast]
    field_simp

/-- C20. In the constructor's pipeline (build, widen, noise, bend), for a valid
shape, the bend pass calls the stem curve on each vertex `w` it receives with the
curve parameter `t = stemHeightPart + (1 - stemHeightPart) layer / k` and the
base height `height * stemHeightPart`; `stemHeightPart ≤ t ≤ 1`, with
`t = stemHeightPart` on the base ring and `t = 1` at the apex. -/
theorem C20_bend_parameter {α : Type} [LinearOrderedField α] (M : CMath α)
    (noise : α → α → Int → α) (bezier : MeshVertex α → α → α → MeshVertex α)
    (p : Parameters α)
    (hk1 : 1 ≤ p.capNumberOfHorizontalDivisions)
    (hk : p.capNumberOfHorizontalDivisions < 65536)
    (hh : 0 < p.height) (_hs0 : 0 < p.stemHeightPart) (hs1 : p.stemHeightPart < 1)
    (m : Nat) (w : MeshVertex α)
    (hw : (applyPerlin M noise p 18
      (widenCapRealisticaly p (generateBaseEllipsoid M p)))[m]? = some w) :
    (Cap M noise bezier p)[m]? =
      some (bezier w
        (p.stemHeightPart +
          (1 - p.stemHeightPart) * ((w.layer : Int) : α) / (p.capNumberOfHorizontalDivisions : α))
        (p.height * p.stemHeightPart)) ∧
    p.stemHeightPart ≤ p.stemHeightPart +
      (1 - p.stemHeightPart) * ((w.layer : Int) : α) / (p.capNumberOfHorizontalDivisions : α) ∧
    p.stemHeightPart +
      (1 - p.stemHeightPart) * ((w.layer : Int) : α) / (p.capNumberOfHorizontalDivisions : α) ≤ 1 ∧
    (w.layer = 0 →
      p.stemHeightPart + (1 - p.stemHeightPart) * ((w.layer : Int) : α) /
        (p.capNumberOfHorizontalDivisions : α) = p.stemHeightPart) ∧
    (w.layer = (p.capNumberOfHorizontalDivisions : Int) →
      p.stemHeightPart + (1 - p.stemHeightPart) * ((w.layer : Int) : α) /
        (p.capNumberOfHorizontalDivisions : α) = 1) := by
  have hkpos : (0 : α) < (p.capNumberOfHorizontalDivisions : α) := by exact_mod_cast hk1
  have hhne : p.height ≠ 0 := ne_of_gt hh
  have hw2 := hw
  simp only [applyPerlin, widenCapRealisticaly, List.getElem?_map, Option.map_eq_some'] at hw2
  obtain ⟨a, ⟨v, hv, rfl⟩, rfl⟩ := hw2
  have hz := lattice_z_of_layer M p hk1 hk m v hv
  obtain ⟨_, hl0, hlk⟩ := sphereZ_lattice M p hk1 hk hh hs1 m v hv
  have hwz : (perlinVertex M noise 18 (p.height * (1 - p.stemHeightPart))
      (widenVertex (toGLushort p.capNumberOfVerticalDivisions)
        (p.height * (1 - p.stemHeightPart)) v)).position.z = v.position.z := by
    rw [(perlinVertex_frame M noise 18 _ _).1, (widenVertex_frame _ _ v).1]
  have hwl : (perlinVertex M noise 18 (p.height * (1 - p.stemHeightPart))
      (widenVertex (toGLushort p.capNumberOfVerticalDivisions)
        (p.height * (1 - p.stemHeightPart)) v)).layer = v.layer := by
    rw [(perlinVertex_frame M noise 18 _ _).2.2.2.1, (widenVertex_frame _ _ v).2.2.2.1]
  rw [hwl]
  have h0 : (0 : α) ≤ ((v.layer : Int) : α) := by exact_mod_cast hl0
  have h1 : ((v.layer : Int) : α) ≤ (p.capNumberOfHorizontalDivisions : α) := by
    exact_mod_cast hlk
  have hq0 : 0 ≤ ((v.layer : Int) : α) / (p.capNumberOfHorizontalDivisions : α) :=
    div_nonneg h0 hkpos.le
  have hq1 : ((v.layer : Int) : α) / (p.capNumberOfHorizontalDivisions : α) ≤ 1 :=
    (div_le_one hkpos).mpr h1
  have hs : 0 ≤ 1 - p.stemHeightPart := by linarith
  refine ⟨?_, ?_, ?_, ?_, ?_⟩
  · simp only [Cap, applyBezierCurve, List.getElem?_map, hw, Option.map_some']
    rw [hwz, hz]
    congr 3
    field_simp
    ring
  · rw [mul_div_assoc]
    have := mul_nonneg hs hq0
    linarith
  · rw [mul_div_assoc]
    have := mul_le_mul_of_nonneg_left hq1 hs
    linarith
  · intro hl
    rw [hl]; simp
  · intro hl
    rw [hl, Int.cast_natCast, mul_div_assoc, div_self (ne_of_gt hkpos)]
    ring

/-- C20 at the scenario shape, with a noise that is `1/2` everywhere and a stem
curve that returns the vertex: the curve parameter of vertex `0` of the base
ring is at least `stemHeightPart`. -/
theorem C20_bend_parameter_witness :
    (scenarioShape ℝ).stemHeightPart ≤ (scenarioShape ℝ).stemHeightPart +
      (1 - (scenarioShape ℝ).stemHeightPart) *
        (((perlinVertex realCMath (fun _ _ _ => 1 / 2) 18
          ((scenarioShape ℝ).height * (1 - (scenarioShape ℝ).stemHeightPart))
          (widenVertex 8 ((scenarioShape ℝ).height * (1 - (scenarioShape ℝ).stemHeightPart))
            (linkVertex 8 4 (ringVertex realCMath (scenarioShape ℝ) 0 0)))).layer : Int) : ℝ) /
        ((scenarioShape ℝ).capNumberOfHorizontalDivisions : ℝ) :=
  (C20_bend_parameter realCMath (fun _ _ _ => 1 / 2) (fun v _ _ => v) (scenarioShape ℝ)
    (by decide) (by decide) (by norm_num [scenarioShape]) (by norm_num [scenarioShape])
    (by norm_num [scenarioShape]) (0 * 8 + 0)
    (perlinVertex realCMath (fun _ _ _ => 1 / 2) 18
      ((scenarioShape ℝ).height * (1 - (scenarioShape ℝ).stemHeightPart))
      (widenVertex 8 ((scenarioShape ℝ).height * (1 - (scenarioShape ℝ).stemHeightPart))
        (linkVertex 8 4 (ringVertex realCMath (scenarioShape ℝ) 0 0))))
    (by
      have hring := generateBaseEllipsoid_ring realCMath (scenarioShape ℝ) 0 0 (by decide)
        (by decide)
      have hn : toGLushort (scenarioShape ℝ).capNumberOfVerticalDivisions = 8 := by decide
      have hk : toGLushort (scenarioShape ℝ).capNumberOfHorizontalDivisions = 4 := by decide
      rw [hn, hk] at hring
      simp only [applyPerlin, widenCapRealisticaly, List.getElem?_map, hring, Option.map_some',
        hn])).2.1

end Morel
